import Mathlib

/-!
Shallow embedding of `src/lib/core/bigarray.py` (sqlmap's disk-cached
list-like container) together with proofs about the claims of its
specification.

The embedding follows the source line by line:

* `BigArray` mirrors the slots of the Python class `BigArray`
  (`chunks`, `chunk_length`, `cache`, `filenames`, `_size_counter`,
  `_closed`, `_compress_level`).  The reentrant lock `_lock` has no
  observable sequential behaviour and is not modelled.
* `World` models the process-wide temporary-file system: `fs` maps a
  file token to the chunk persisted in that file (pickling followed by
  zlib compression round-trips every value, so a file's content is
  modelled as the chunk it stores) and `next` is the `tempfile.mkstemp`
  freshness counter: every new temporary file gets a token never used
  before.
* Fallible Python code returns `Except PyErr`; since an exception leaves
  prior mutations in place, every operation also returns the (possibly
  mutated) `World` and `BigArray`.
-/

namespace SqlmapBigArray

/-- Nat identifying one temporary file created by `tempfile.mkstemp`. -/
abbrev Token := Nat

/-- Model of CPython `sys.maxsize` on a 64-bit platform; `BigArray.__init__`
uses it as the sentinel for a still-undetermined chunk length. -/
def sysMaxsize : Nat := 2 ^ 63 - 1

/-- Modelled from the spec: `BIGARRAY_CHUNK_SIZE` lives in
`lib/core/settings.py`, which is not under `src/`; the spec (section 4.2)
describes it as a fixed configured byte threshold crossed by the
accumulated size estimate. -/
def BIGARRAY_CHUNK_SIZE : Nat := 1024 * 1024

/-- Modelled from the spec: `BIGARRAY_COMPRESS_LEVEL` lives in
`lib/core/settings.py`, which is not under `src/`; the spec (section 6)
describes it as a default compression level for spilled chunks. -/
def BIGARRAY_COMPRESS_LEVEL : Nat := 9

/-- Modelled from the spec: temporary files carry a fixed recognizable
name prefix (`MKSTEMP_PREFIX.BIG_ARRAY` from `lib/core/enums.py`, not
under `src/`; spec section 6). -/
def fileNameOf (tok : Nat) : String := "sqlmapba-" ++ Nat.repr tok

/-- Python exceptions that the translated code can raise.
`sqlmapSystemException` models `SqlmapSystemException` from
`lib/core/exception.py` (its class body is not under `src/`, but
`bigarray.py` only constructs it with a message). -/
inductive PyErr where
  | valueError (msg : String)
  | indexError (msg : String)
  | typeError (msg : String)
  | attributeError (msg : String)
  | zeroDivisionError
  | pickleError (msg : String)
  | zlibError (msg : String)
  | sqlmapSystemException (msg : String)
deriving DecidableEq

/-- One entry of `BigArray.chunks`: either a resident Python list or the
`str` filename of a spilled chunk (`isinstance(chunk, list)` decides
between the two in the source). -/
inductive Chunk (V : Type) where
  | mem (data : List V)
  | disk (tok : Nat)
deriving DecidableEq

/-- The auxiliary class `Cache` of `bigarray.py` (slots `index`, `data`,
`dirty`; `_last_access` is written once and never read, so it is not
modelled). -/
structure Cache (V : Type) where
  index : Nat
  data : List V
  dirty : Bool
deriving DecidableEq

/-- The temporary-file system plus the `mkstemp` freshness counter. -/
structure World (V : Type) where
  fs : List (Nat × List V)
  next : Nat
deriving DecidableEq

/-- The slots of the Python class `BigArray`. -/
structure BigArray (V : Type) where
  chunks : List (Chunk V)
  chunk_length : Nat
  cache : Option (Cache V)
  filenames : List Nat
  size_counter : Option Nat
  closed : Bool
  compress_level : Nat
deriving DecidableEq

/-- Reading a file: lookup of a token in the modelled file system. -/
def fsLookup {V : Type} : List (Nat × List V) → Nat → Option (List V)
  | [], _ => none
  | (k, d) :: rest, t => if k = t then some d else fsLookup rest t

/-- Result of one operation: outcome, file system, container.  The state
components are always returned because a Python exception leaves earlier
mutations in place. -/
abbrev PyRes (V : Type) (α : Type) := Except PyErr α × World V × BigArray V

/-- Message of the ValueError raised by operations on a closed container. -/
def closedMsg : String := "Operation on closed BigArray"

/-- Remediation hint appended by `BigArray._dump` to the OS error text:
check free disk space, or redirect the temp directory. -/
def dumpErrHint : String :=
  "). Please make sure that there is enough disk space left. If problem persists, " ++
  "try to set environment variable TEMP to a location writeable by the current user"

/-- Message built by `BigArray._dump` for an OS-level failure: it carries
the OS error text and the remediation hint about disk space and the TEMP
directory. -/
def dumpErrMsg (os : String) : String :=
  "exception occurred while storing data to a temporary file (" ++ (os ++ dumpErrHint)

/-- Message built by `BigArray._load_chunk` and `BigArray._checkcache`
for a failure while reading a spilled chunk back. -/
def loadErrMsg (os : String) : String :=
  "exception occurred while retrieving data from a temporary file (" ++ os ++ ")"

/-- Message of the IndexError raised by `__getitem__`. -/
def oorMsg : String := "BigArray index out of range"

/-- Message of the IndexError raised by `__setitem__`. -/
def assignOorMsg : String := "BigArray assignment index out of range"

/-- The state `BigArray.__init__` establishes when called with no
arguments (as `clear` and `__setstate__` do). -/
def initBA (V : Type) : BigArray V :=
  { chunks := [Chunk.mem []]
    chunk_length := sysMaxsize
    cache := none
    filenames := []
    size_counter := some 0
    closed := false
    compress_level := BIGARRAY_COMPRESS_LEVEL }

/-- The state `BigArray.__init__` establishes for explicit `chunk_size`
and `compress_level` arguments and no initial items: the chunk length is
overridden (and the size counter disabled) exactly when the passed chunk
size differs from the default `BIGARRAY_CHUNK_SIZE`. -/
def BigArray.init (V : Type) (chunk_size : Nat) (compress_level : Nat) : BigArray V :=
  let base := { initBA V with compress_level := compress_level }
  if chunk_size = BIGARRAY_CHUNK_SIZE then base
  else { base with chunk_length := chunk_size, size_counter := none }

/-- Python `len` of one entry of `chunks`: the length of the resident
list, or the length of the filename string for a spilled chunk (the
source never reaches the latter case because the last chunk is always
resident). -/
def Chunk.pyLen {V : Type} : Chunk V → Nat
  | .mem l => l.length
  | .disk t => (fileNameOf t).length

/-- Translation of `BigArray.__len__`: 0 when closed, otherwise the
length of the single chunk, or `(number_of_chunks - 1) * chunk_length`
plus the length of the last chunk. -/
def BigArray.len {V : Type} (a : BigArray V) : Nat :=
  if a.closed then 0
  else
    let lastLen := (a.chunks.getLastD (Chunk.mem [])).pyLen
    if a.chunks.length = 1 then lastLen
    else (a.chunks.length - 1) * a.chunk_length + lastLen

/-- Failure-injection points of `BigArray._dump`: `tempfile.mkstemp` and
the final file write can raise `OSError`/`IOError` (which the source
converts), while `pickle.dumps` and `zlib.compress` can raise
`pickle.PicklingError` and `zlib.error` (which the `except (OSError,
IOError)` clause of the source does not catch). -/
inductive DumpFault where
  | ok
  | mkstempFail (os : String)
  | pickleFail (msg : String)
  | zlibFail (msg : String)
  | writeFail (os : String)

/-- Translation of `BigArray._dump` with an explicit failure-injection
argument.  On the fault-free path it creates a fresh temporary file,
registers it in `filenames`, writes the serialized compressed chunk and
returns the filename token.  A failing `mkstemp` raises before the
filename is registered; later failures leave the (empty) file created
and registered. -/
def dumpWith {V : Type} (fault : DumpFault) (w : World V) (a : BigArray V)
    (chunk : List V) : PyRes V Nat :=
  match fault with
  | .mkstempFail os =>
      (Except.error (PyErr.sqlmapSystemException (dumpErrMsg os)), w, a)
  | .pickleFail m =>
      (Except.error (PyErr.pickleError m),
       { w with next := w.next + 1 },
       { a with filenames := w.next :: a.filenames })
  | .zlibFail m =>
      (Except.error (PyErr.zlibError m),
       { w with next := w.next + 1 },
       { a with filenames := w.next :: a.filenames })
  | .writeFail os =>
      (Except.error (PyErr.sqlmapSystemException (dumpErrMsg os)),
       { w with next := w.next + 1 },
       { a with filenames := w.next :: a.filenames })
  | .ok =>
      (Except.ok w.next,
       { fs := (w.next, chunk) :: w.fs, next := w.next + 1 },
       { a with filenames := w.next :: a.filenames })

/-- The fault-free run of `BigArray._dump`, used by every caller inside
the class. -/
def dumpOk {V : Type} (w : World V) (a : BigArray V) (chunk : List V) :
    PyRes V Nat :=
  dumpWith DumpFault.ok w a chunk

/-- First half of `BigArray._checkcache`: if the cache slot holds a
dirty chunk other than the target, dump it and replace the store's
placeholder at its index by the new filename, clearing the dirty flag.
Python would raise IndexError on the placeholder assignment were the
cached index out of range (the dump having already happened). -/
def flushStep {V : Type} (w : World V) (a : BigArray V) (target : Nat) :
    PyRes V Unit :=
  match a.cache with
  | none => (Except.ok (), w, a)
  | some c =>
      if c.index = target then (Except.ok (), w, a)
      else if c.dirty then
        match dumpOk w a c.data with
        | (Except.ok tok, w1, a1) =>
            if c.index < a1.chunks.length then
              (Except.ok (), w1,
               { a1 with chunks := a1.chunks.set c.index (Chunk.disk tok)
                         cache := some { c with dirty := false } })
            else
              (Except.error (PyErr.indexError ("list assignment index out of range")),
               w1, a1)
        | (Except.error e, w1, a1) => (Except.error e, w1, a1)
      else (Except.ok (), w, a)

/-- Loading part of `BigArray._checkcache`: materialize the placeholder
at `target` into the cache slot (reading and deserializing the file when
it is spilled, aliasing the resident list otherwise).  Any failure is
converted to `SqlmapSystemException` by the `except Exception` clause. -/
def doLoad {V : Type} (w : World V) (a : BigArray V) (target : Nat) :
    PyRes V Unit :=
  match a.chunks[target]? with
  | none =>
      (Except.error (PyErr.sqlmapSystemException (loadErrMsg ("list index out of range"))),
       w, a)
  | some (Chunk.disk tok) =>
      match fsLookup w.fs tok with
      | some d => (Except.ok (), w, { a with cache := some ⟨target, d, false⟩ })
      | none =>
          (Except.error (PyErr.sqlmapSystemException (loadErrMsg ("file not found"))),
           w, a)
  | some (Chunk.mem l) => (Except.ok (), w, { a with cache := some ⟨target, l, false⟩ })

/-- Second half of `BigArray._checkcache`: load the target chunk unless
the cache already holds it. -/
def loadStep {V : Type} (w : World V) (a : BigArray V) (target : Nat) :
    PyRes V Unit :=
  match a.cache with
  | some c => if c.index = target then (Except.ok (), w, a) else doLoad w a target
  | none => doLoad w a target

/-- Translation of `BigArray._checkcache`: flush a dirty non-target
cache slot, then make the cache hold the target chunk. -/
def _checkcache {V : Type} (w : World V) (a : BigArray V) (target : Nat) :
    PyRes V Unit :=
  match flushStep w a target with
  | (Except.ok _, w1, a1) => loadStep w1 a1 target
  | (Except.error e, w1, a1) => (Except.error e, w1, a1)

/-- Spill check at the end of `BigArray.append`: once the open chunk has
reached `chunk_length` elements it is dumped, its placeholder replaced
by the filename, and a new empty open chunk appended.  `l1` is the open
chunk after the element was pushed. -/
def appendSpill {V : Type} (w : World V) (a : BigArray V) (l1 : List V) :
    PyRes V Unit :=
  if a.chunk_length ≤ l1.length then
    match dumpOk w a l1 with
    | (Except.ok tok, w1, a1) =>
        (Except.ok (), w1,
         { a1 with chunks := a1.chunks.dropLast ++ [Chunk.disk tok, Chunk.mem []] })
    | (Except.error e, w1, a1) => (Except.error e, w1, a1)
  else (Except.ok (), w, a)

/-- Adaptive-sizing step of `BigArray.append`: while `chunk_length` is
the `sys.maxsize` sentinel and the size counter is alive, the memoized
size estimate of the new value is accumulated; `sz v = none` models the
`TypeError` that `lru_cache` raises for an unhashable value (the element
is already in the open chunk when it propagates).  When the accumulated
total crosses `BIGARRAY_CHUNK_SIZE`, the chunk length is fixed to
`max(len(chunks[-1]), 1)` and the counter is disabled. -/
def appendSizing {V : Type} (sz : V → Option Nat) (w : World V) (a : BigArray V)
    (v : V) (l1 : List V) : PyRes V Unit :=
  match a.size_counter with
  | some s =>
      if a.chunk_length = sysMaxsize then
        match sz v with
        | none => (Except.error (PyErr.typeError ("unhashable type")), w, a)
        | some k =>
            if BIGARRAY_CHUNK_SIZE ≤ s + k then
              appendSpill w
                { a with chunk_length := max l1.length 1, size_counter := none } l1
            else appendSpill w { a with size_counter := some (s + k) } l1
      else appendSpill w a l1
  | none => appendSpill w a l1

/-- Translation of `BigArray.append`: refuse when closed, push the value
onto the open chunk, then run the sizing and spill steps.  The
unreachable cases where `chunks` is empty or its last entry is a
filename mirror the IndexError and AttributeError Python would raise. -/
def BigArray.append {V : Type} (sz : V → Option Nat) (w : World V)
    (a : BigArray V) (v : V) : PyRes V Unit :=
  if a.closed then (Except.error (PyErr.valueError closedMsg), w, a)
  else
    match a.chunks.getLast? with
    | none => (Except.error (PyErr.indexError ("list index out of range")), w, a)
    | some (Chunk.disk _) =>
        (Except.error (PyErr.attributeError ("str object has no attribute append")), w, a)
    | some (Chunk.mem l) =>
        let l1 := l ++ [v]
        appendSizing sz w { a with chunks := a.chunks.dropLast ++ [Chunk.mem l1] } v l1

/-- Loop body of `BigArray.extend`: append each value in order, stopping
at (and propagating) the first exception. -/
def extendGo {V : Type} (sz : V → Option Nat) :
    List V → World V → BigArray V → PyRes V Unit
  | [], w, a => (Except.ok (), w, a)
  | v :: vs, w, a =>
      match BigArray.append sz w a v with
      | (Except.ok _, w1, a1) => extendGo sz vs w1 a1
      | (Except.error e, w1, a1) => (Except.error e, w1, a1)

/-- Translation of `BigArray.extend`. -/
def BigArray.extend {V : Type} (sz : V → Option Nat) (w : World V)
    (a : BigArray V) (vs : List V) : PyRes V Unit :=
  if a.closed then (Except.error (PyErr.valueError closedMsg), w, a)
  else extendGo sz vs w a

/-- Final statement of `BigArray.pop`: `self.chunks[-1].pop()` on the
(now) last chunk. -/
def popLastElem {V : Type} (w : World V) (a : BigArray V) : PyRes V V :=
  match a.chunks.getLast? with
  | none => (Except.error (PyErr.indexError ("list index out of range")), w, a)
  | some (Chunk.disk _) =>
      (Except.error (PyErr.attributeError ("str object has no attribute pop")), w, a)
  | some (Chunk.mem l) =>
      match l.getLast? with
      | none => (Except.error (PyErr.indexError ("pop from empty list")), w, a)
      | some x =>
          (Except.ok x, w, { a with chunks := a.chunks.dropLast ++ [Chunk.mem l.dropLast] })

/-- Translation of `BigArray._load_chunk(-1)`: if the last placeholder
is a filename, read the file back and put the deserialized list in its
place; failures become `SqlmapSystemException`.  Note that this reads
the persisted bytes directly — the cache slot is not consulted. -/
def loadChunkLast {V : Type} (w : World V) (a : BigArray V) : PyRes V Unit :=
  match a.chunks.getLast? with
  | none => (Except.error (PyErr.indexError ("list index out of range")), w, a)
  | some (Chunk.mem _) => (Except.ok (), w, a)
  | some (Chunk.disk tok) =>
      match fsLookup w.fs tok with
      | some d => (Except.ok (), w, { a with chunks := a.chunks.dropLast ++ [Chunk.mem d] })
      | none =>
          (Except.error (PyErr.sqlmapSystemException (loadErrMsg ("file not found"))), w, a)

/-- Translation of `BigArray.pop`: refuse when closed; when the open
chunk is empty, fail for a single-chunk store, otherwise drop the empty
placeholder and promote the previous chunk via `_load_chunk`; finally
pop the last element of the (promoted) open chunk. -/
def BigArray.pop {V : Type} (w : World V) (a : BigArray V) : PyRes V V :=
  if a.closed then (Except.error (PyErr.valueError closedMsg), w, a)
  else
    match a.chunks.getLast? with
    | none => (Except.error (PyErr.indexError ("list index out of range")), w, a)
    | some last =>
        if last.pyLen < 1 then
          if a.chunks.length ≤ 1 then
            (Except.error (PyErr.indexError ("pop from empty BigArray")), w, a)
          else
            match loadChunkLast w { a with chunks := a.chunks.dropLast } with
            | (Except.ok _, w1, a1) => popLastElem w1 a1
            | (Except.error e, w1, a1) => (Except.error e, w1, a1)
        else popLastElem w a

/-- Continuation of `BigArray.__getitem__` for a spilled chunk: run
`_checkcache` on the chunk index and read `self.cache.data[offset]`
(the cache being necessarily set after a successful `_checkcache`). -/
def getSpilled {V : Type} (w : World V) (a : BigArray V) (idx off : Nat) :
    PyRes V V :=
  match _checkcache w a idx with
  | (Except.ok _, w1, a1) =>
      match a1.cache with
      | some c =>
          match c.data[off]? with
          | some v => (Except.ok v, w1, a1)
          | none =>
              (Except.error (PyErr.indexError ("list index out of range")), w1, a1)
      | none => (Except.error (PyErr.attributeError ("cache is None")), w1, a1)
  | (Except.error e, w1, a1) => (Except.error e, w1, a1)

/-- Continuation of `BigArray.__setitem__` for a spilled chunk: run
`_checkcache` on the chunk index, assign `self.cache.data[offset]` and
only then set the dirty flag (a failing assignment leaves it clear). -/
def setSpilled {V : Type} (w : World V) (a : BigArray V) (idx off : Nat)
    (v : V) : PyRes V Unit :=
  match _checkcache w a idx with
  | (Except.ok _, w1, a1) =>
      match a1.cache with
      | some c =>
          if off < c.data.length then
            (Except.ok (), w1,
             { a1 with cache := some { c with data := c.data.set off v, dirty := true } })
          else
            (Except.error (PyErr.indexError ("list assignment index out of range")),
             w1, a1)
      | none => (Except.error (PyErr.attributeError ("cache is None")), w1, a1)
  | (Except.error e, w1, a1) => (Except.error e, w1, a1)

/-- Translation of `BigArray.__getitem__` for an integer key: closed
check, empty check, negative-index normalization, bounds check, then
chunk addressing by floor division and remainder (`key // 0` raises
ZeroDivisionError in Python); a resident chunk is read directly and a
spilled chunk through `_checkcache`. -/
def BigArray.getItem {V : Type} (w : World V) (a : BigArray V) (key : Int) :
    PyRes V V :=
  if a.closed then (Except.error (PyErr.valueError closedMsg), w, a)
  else
    let length := a.len
    if length = 0 then (Except.error (PyErr.indexError oorMsg), w, a)
    else
      let key2 := if key < 0 then key + (length : Int) else key
      if key2 < 0 ∨ (length : Int) ≤ key2 then
        (Except.error (PyErr.indexError oorMsg), w, a)
      else if a.chunk_length = 0 then (Except.error PyErr.zeroDivisionError, w, a)
      else
        let k := key2.toNat
        let idx := k / a.chunk_length
        let off := k % a.chunk_length
        match a.chunks[idx]? with
        | none => (Except.error (PyErr.indexError ("list index out of range")), w, a)
        | some (Chunk.mem l) =>
            match l[off]? with
            | some v => (Except.ok v, w, a)
            | none => (Except.error (PyErr.indexError ("list index out of range")), w, a)
        | some (Chunk.disk _) => getSpilled w a idx off

/-- Translation of `BigArray.__setitem__`: closed check, negative-index
normalization, bounds check, then chunk addressing; a resident chunk is
mutated in place, a spilled one through the cache, which is marked dirty
only after the in-slot assignment succeeded. -/
def BigArray.setItem {V : Type} (w : World V) (a : BigArray V) (key : Int)
    (v : V) : PyRes V Unit :=
  if a.closed then (Except.error (PyErr.valueError closedMsg), w, a)
  else
    let length := a.len
    let key2 := if key < 0 then key + (length : Int) else key
    if key2 < 0 ∨ (length : Int) ≤ key2 then
      (Except.error (PyErr.indexError assignOorMsg), w, a)
    else if a.chunk_length = 0 then (Except.error PyErr.zeroDivisionError, w, a)
    else
      let k := key2.toNat
      let idx := k / a.chunk_length
      let off := k % a.chunk_length
      match a.chunks[idx]? with
      | none => (Except.error (PyErr.indexError ("list index out of range")), w, a)
      | some (Chunk.mem l) =>
          if off < l.length then
            (Except.ok (), w, { a with chunks := a.chunks.set idx (Chunk.mem (l.set off v)) })
          else
            (Except.error (PyErr.indexError ("list assignment index out of range")), w, a)
      | some (Chunk.disk _) => setSpilled w a idx off v

/-- Translation of `BigArray.close`: a second call returns immediately;
otherwise the container is marked closed, every registered temporary
file is removed (best effort) and the registry emptied, and the cache
slot is discarded without flushing. -/
def BigArray.close {V : Type} (w : World V) (a : BigArray V) :
    World V × BigArray V :=
  if a.closed then (w, a)
  else
    ({ w with fs := w.fs.filter (fun p => !(a.filenames.contains p.1)) },
     { a with closed := true, filenames := [], cache := none })

/-- Translation of `BigArray.clear`: close (deleting temporary files),
then re-run `__init__` with default arguments. -/
def BigArray.clear {V : Type} (w : World V) (a : BigArray V) :
    World V × BigArray V :=
  let p := BigArray.close w a
  (p.1, initBA V)

/-- Loop of `BigArray.__iter__`: yield `self[i]` for each index of
`range(len(self))`, stopping cleanly at an IndexError and propagating
any other exception. -/
def iterGo {V : Type} : List Nat → World V → BigArray V → PyRes V (List V)
  | [], w, a => (Except.ok [], w, a)
  | i :: rest, w, a =>
      match BigArray.getItem w a (Int.ofNat i) with
      | (Except.ok v, w1, a1) =>
          match iterGo rest w1 a1 with
          | (Except.ok vs, w2, a2) => (Except.ok (v :: vs), w2, a2)
          | (Except.error e, w2, a2) => (Except.error e, w2, a2)
      | (Except.error (PyErr.indexError _), w1, a1) => (Except.ok [], w1, a1)
      | (Except.error e, w1, a1) => (Except.error e, w1, a1)

/-- Translation of `BigArray.__iter__`, materialized into the list of
yielded elements (the range bound is the length at the start of the
traversal). -/
def BigArray.iterToList {V : Type} (w : World V) (a : BigArray V) :
    PyRes V (List V) :=
  iterGo (List.range a.len) w a

/-- Translation of `BigArray.count`: the number of yielded elements that
equal the value. -/
def BigArray.count {V : Type} [DecidableEq V] (w : World V) (a : BigArray V)
    (value : V) : PyRes V Nat :=
  match BigArray.iterToList w a with
  | (Except.ok vs, w1, a1) =>
      (Except.ok (vs.countP (fun x => decide (x = value))), w1, a1)
  | (Except.error e, w1, a1) => (Except.error e, w1, a1)

/-- Loop of `BigArray.index`: scan the given indices through
`__getitem__`, returning the first position holding the value and
raising ValueError after an unsuccessful scan. -/
def indexGo {V : Type} [DecidableEq V] [ToString V] (value : V) :
    List Nat → World V → BigArray V → PyRes V Nat
  | [], w, a =>
      (Except.error (PyErr.valueError (toString value ++ " is not in BigArray")), w, a)
  | i :: rest, w, a =>
      match BigArray.getItem w a (Int.ofNat i) with
      | (Except.ok v, w1, a1) =>
          if v = value then (Except.ok i, w1, a1) else indexGo value rest w1 a1
      | (Except.error e, w1, a1) => (Except.error e, w1, a1)

/-- Translation of `BigArray.index` (note: it performs no closed check
of its own; on a closed container the length is 0 and the scan range is
empty). -/
def BigArray.indexOf {V : Type} [DecidableEq V] [ToString V] (w : World V)
    (a : BigArray V) (value : V) (start : Nat) (stop? : Option Nat) : PyRes V Nat :=
  let length := a.len
  let stop := match stop? with
    | none => length
    | some s => min s length
  indexGo value (List.range' start (stop - start)) w a

/-- Translation of `BigArray.reverse`: materialize the elements, reverse
them, clear the container (which reinitializes it) and extend with the
reversed list. -/
def BigArray.reverseOp {V : Type} (sz : V → Option Nat) (w : World V)
    (a : BigArray V) : PyRes V Unit :=
  if a.closed then (Except.error (PyErr.valueError closedMsg), w, a)
  else
    match BigArray.iterToList w a with
    | (Except.ok items, w1, a1) =>
        let p := BigArray.clear w1 a1
        BigArray.extend sz p.1 p.2 items.reverse
    | (Except.error e, w1, a1) => (Except.error e, w1, a1)

/-- Translation of `BigArray.__getstate__`: the persistable state is the
chunk placeholders, the filename registry, the chunk length and the
compression level. -/
def BigArray.getstate {V : Type} (a : BigArray V) :
    List (Chunk V) × List Nat × Nat × Nat :=
  (a.chunks, a.filenames, a.chunk_length, a.compress_level)

/-- Translation of `BigArray.__setstate__` for a 4-tuple state: re-run
`__init__` and install the four persisted fields. -/
def BigArray.setstate {V : Type} (st : List (Chunk V) × List Nat × Nat × Nat) :
    BigArray V :=
  { initBA V with
      chunks := st.1
      filenames := st.2.1
      chunk_length := st.2.2.1
      compress_level := st.2.2.2 }

/-- Sequential reads: call `__getitem__` for each listed index in order,
collecting each outcome, with the cache evolving across calls. -/
def readAll {V : Type} : List Nat → World V → BigArray V →
    List (Except PyErr V) × World V × BigArray V
  | [], w, a => ([], w, a)
  | i :: rest, w, a =>
      match BigArray.getItem w a (Int.ofNat i) with
      | (r, w1, a1) =>
          match readAll rest w1 a1 with
          | (rs, w2, a2) => (r :: rs, w2, a2)

/-- Public mutating or cache-affecting operations, used to quantify over
operation traces (the reinitializing operations `clear`, `reverse` and
`__setstate__` are deliberately separate: they start a new lifetime). -/
inductive Op (V : Type) where
  | app (v : V)
  | ext (vs : List V)
  | popOp
  | getOp (key : Int)
  | setOp (key : Int) (v : V)

/-- State transition of one public operation (the outcome is dropped:
a raising operation still leaves its mutations in place). -/
def stepOp {V : Type} (sz : V → Option Nat) (w : World V) (a : BigArray V) :
    Op V → World V × BigArray V
  | .app v => (BigArray.append sz w a v).2
  | .ext vs => (BigArray.extend sz w a vs).2
  | .popOp => (BigArray.pop w a).2
  | .getOp key => (BigArray.getItem w a key).2
  | .setOp key v => (BigArray.setItem w a key v).2

/-- Run a trace of public operations. -/
def runOps {V : Type} (sz : V → Option Nat) :
    List (Op V) → World V → BigArray V → World V × BigArray V
  | [], w, a => (w, a)
  | o :: os, w, a =>
      let p := stepOp sz w a o
      runOps sz os p.1 p.2

/-- Universe of Python values used for the claims about the size
estimator: machine integers and strings are hashable, lists are not. -/
inductive PyVal where
  | int (n : Int)
  | str (s : String)
  | list (xs : List PyVal)

/-- Python hashability of a `PyVal`: lists are unhashable. -/
def pyHashable : PyVal → Bool
  | .list _ => false
  | _ => true

/-- Modelled from the spec: `sys.getsizeof` is external to the
repository; the spec (section 4.2) only requires a positive base
footprint per element, so representative CPython figures are used. -/
def getsizeofModel : PyVal → Nat
  | .int _ => 28
  | .str s => 49 + s.length
  | .list xs => 56 + 8 * xs.length

/-- Translation of the body of `_size_of`: the base footprint plus, for
an iterable that is not a text or byte sequence, the summed footprints
of its members; the recursive memoized call raises TypeError on an
unhashable member, which the `except` clause swallows, leaving only the
base footprint.  Members reached by the sum are hashable (non-list)
values, for which the recursive call reduces to the base footprint. -/
def _size_of : PyVal → Nat
  | .int n => getsizeofModel (.int n)
  | .str s => getsizeofModel (.str s)
  | .list xs =>
      getsizeofModel (.list xs) +
      (if xs.all pyHashable then (xs.map getsizeofModel).sum else 0)

/-- The `lru_cache` wrapper around `_size_of` as seen by `append`: the
argument is hashed first, so an unhashable value raises TypeError before
the body runs — modelled as `none`. -/
def sizeOfMemo (v : PyVal) : Option Nat :=
  if pyHashable v then some (_size_of v) else none

/-- Content reachable from one chunk placeholder: a resident list
directly, a spilled one through the file system. -/
def chunkData {V : Type} (w : World V) : Chunk V → Option (List V)
  | .mem l => some l
  | .disk tok => fsLookup w.fs tok

/-- Specification-level random access: the element at logical index `i`
is element `i mod L` of the chunk placeholder number `i div L`. -/
def specGet {V : Type} (w : World V) (L : Nat) (chunks : List (Chunk V))
    (i : Nat) : Option V :=
  match chunks[i / L]? with
  | some ch => (chunkData w ch).bind (fun d => d[i % L]?)
  | none => none

/-- Content of a spilled chunk, with an (unreachable) default for a
missing file. -/
def resolveD {V : Type} (w : World V) (tok : Nat) : List V :=
  (fsLookup w.fs tok).getD []

/-- Read-well-formedness: the data-model invariant of section 3 of the
spec, as maintained by the source for every reachable container whose
cache slot is clean.  The last chunk is resident and shorter than the
chunk length, every body chunk materializes to exactly `chunk_length`
elements, and a (clean) cache slot mirrors the placeholder it indexes. -/
structure WFr {V : Type} (w : World V) (a : BigArray V) (body : List (Chunk V))
    (t : List V) : Prop where
  notClosed : a.closed = false
  lpos : 1 ≤ a.chunk_length
  chunksEq : a.chunks = body ++ [Chunk.mem t]
  tlt : t.length < a.chunk_length
  bodyOk : ∀ c ∈ body, ∃ d, chunkData w c = some d ∧ d.length = a.chunk_length
  cacheClean : ∀ c, a.cache = some c → c.dirty = false ∧
      ∃ ch, a.chunks[c.index]? = some ch ∧ chunkData w ch = some c.data

/-- Invariant of the append phase: a container reached from a fresh
construction by appends only.  All body chunks are spilled with exactly
`chunk_length` elements each, their tokens are fresh with respect to the
file counter, the cache is untouched, the flattening of the store is the
list of appended values, and the adaptive sizing state is consistent. -/
structure Inv {V : Type} (w : World V) (a : BigArray V) (toks : List Nat)
    (t : List V) (xs : List V) : Prop where
  notClosed : a.closed = false
  lpos : 1 ≤ a.chunk_length
  chunksEq : a.chunks = toks.map Chunk.disk ++ [Chunk.mem t]
  cacheNone : a.cache = none
  bodyOk : ∀ tok ∈ toks, ∃ d, fsLookup w.fs tok = some d ∧
      d.length = a.chunk_length
  fresh : ∀ tok ∈ toks, tok < w.next
  tlt : t.length < a.chunk_length
  flat : ((toks.map (resolveD w)).flatten ++ t : List V) = xs
  sizing : a.size_counter = none ∨
      (a.chunk_length = sysMaxsize ∧ toks = [] ∧
       ∃ s, a.size_counter = some s ∧ t.length ≤ s ∧ s < BIGARRAY_CHUNK_SIZE)

/-- State reached after a write through the cache into spilled chunk
`ki` of a container that also has a spilled chunk `kj`: the slot holds
the dirty written data, chunk `kj` is still spilled and readable, and
every spilled token is fresh with respect to the file counter. -/
structure MidSt {V : Type} (w1 : World V) (a1 : BigArray V) (L ki kj i : Nat)
    (v : V) : Prop where
  notClosed : a1.closed = false
  lEq : a1.chunk_length = L
  lpos : 1 ≤ L
  shape : ∃ body1 t1, a1.chunks = body1 ++ [Chunk.mem t1] ∧
      ki < body1.length ∧ kj < body1.length
  cacheD : ∃ D, a1.cache = some ⟨ki, D, true⟩ ∧ D.length = L ∧ D[i % L]? = some v
  kjSpill : ∃ f2 d2, a1.chunks[kj]? = some (Chunk.disk f2) ∧
      fsLookup w1.fs f2 = some d2 ∧ d2.length = L
  fresh : ∀ tok, Chunk.disk tok ∈ a1.chunks → tok < w1.next
  idiv : i / L = ki
  neq : ki ≠ kj

/-- State reached after the eviction triggered by reading chunk `kj`:
the dirty data over chunk `ki` was flushed to a fresh file, the store's
placeholder at `ki` now names that file, and the cache slot holds chunk
`kj`, clean. -/
structure FinSt {V : Type} (w2 : World V) (a2 : BigArray V) (L ki i : Nat)
    (v : V) : Prop where
  notClosed : a2.closed = false
  lEq : a2.chunk_length = L
  lpos : 1 ≤ L
  shape : ∃ body2 t2, a2.chunks = body2 ++ [Chunk.mem t2] ∧ ki < body2.length
  cacheClean : ∃ c, a2.cache = some c ∧ c.dirty = false ∧ c.index ≠ ki
  kiDisk : ∃ tokD D, a2.chunks[ki]? = some (Chunk.disk tokD) ∧
      fsLookup w2.fs tokD = some D ∧ D.length = L ∧ D[i % L]? = some v
  idiv : i / L = ki

/-- Empty file system used by the concrete runs below. -/
def w0N : World Nat := ⟨[], 0⟩

/-- Size estimator assigning every value one byte (a total, positive
estimate, as `sys.getsizeof` is for hashable values). -/
def sz1 : Nat → Option Nat := fun _ => some 1

/-- Concrete run: chunk length explicitly 2, elements 0..4 appended.
The resulting store is `[0,1] [2,3] [4]` with the first two chunks
spilled to files 0 and 1. -/
def st5 : PyRes Nat Unit :=
  BigArray.extend sz1 w0N (BigArray.init Nat 2 9) [0, 1, 2, 3, 4]

/-- Concrete run continued: write 99 at logical index 3 (chunk 1,
offset 1), which loads chunk 1 into the cache and dirties it without
touching file 1. -/
def stDirty : PyRes Nat Unit := BigArray.setItem st5.2.1 st5.2.2 3 99

/-- Concrete run continued: first pop (returns 4, the open chunk
empties). -/
def c4pop1 : PyRes Nat Nat := BigArray.pop stDirty.2.1 stDirty.2.2

/-- Concrete run continued: second pop — the empty open chunk is
dropped and chunk 1 is promoted by reading file 1 back, bypassing the
dirty cache. -/
def c4pop2 : PyRes Nat Nat := BigArray.pop c4pop1.2.1 c4pop1.2.2

/-- The container of `st5`, written out literally: two spilled chunks
and a resident tail. -/
def stTwoSpill : BigArray Nat :=
  { chunks := [Chunk.disk 0, Chunk.disk 1, Chunk.mem [4]]
    chunk_length := 2
    cache := none
    filenames := [1, 0]
    size_counter := none
    closed := false
    compress_level := 9 }

/-- The file system of `st5`, written out literally. -/
def wTwoSpill : World Nat := ⟨[(1, [2, 3]), (0, [0, 1])], 2⟩

/-- A container with a dirty cache slot over spilled chunk 1 whose open
chunk is empty: the state reached by `stDirty` followed by one pop. -/
def stPromote : BigArray Nat :=
  { chunks := [Chunk.disk 0, Chunk.disk 1, Chunk.mem []]
    chunk_length := 2
    cache := some ⟨1, [2, 99], true⟩
    filenames := [1, 0]
    size_counter := none
    closed := false
    compress_level := 9 }

/-- A freshly constructed container that was closed. -/
def closedNat : BigArray Nat := { initBA Nat with closed := true }

/-- C5: a container holding exactly one chunk with exactly one element:
`pop()` succeeds with that element and leaves one empty chunk, and a
second `pop()` on the result raises the out-of-range IndexError
("pop from empty BigArray"). -/
theorem claim5_pop_boundary {V : Type} (w : World V) (a : BigArray V) (v : V)
    (hclosed : a.closed = false) (hchunks : a.chunks = [Chunk.mem [v]]) :
    BigArray.pop w a = (Except.ok v, w, { a with chunks := [Chunk.mem []] }) ∧
    BigArray.pop w { a with chunks := [Chunk.mem []] } =
      (Except.error (PyErr.indexError ("pop from empty BigArray")), w,
       { a with chunks := [Chunk.mem []] }) := by
  constructor
  · simp [BigArray.pop, hclosed, hchunks, popLastElem, Chunk.pyLen]
  · simp [BigArray.pop, hclosed, Chunk.pyLen]

/-- Witness for C5 at a fresh single-element container. -/
theorem claim5_pop_boundary_witness :
    BigArray.pop w0N { initBA Nat with chunks := [Chunk.mem [42]] } =
      (Except.ok 42, w0N, { { initBA Nat with chunks := [Chunk.mem [42]] } with chunks := [Chunk.mem []] }) ∧
    BigArray.pop w0N { { initBA Nat with chunks := [Chunk.mem [42]] } with chunks := [Chunk.mem []] } =
      (Except.error (PyErr.indexError ("pop from empty BigArray")), w0N,
       { { initBA Nat with chunks := [Chunk.mem [42]] } with chunks := [Chunk.mem []] }) :=
  claim5_pop_boundary w0N { initBA Nat with chunks := [Chunk.mem [42]] } 42 rfl rfl

/-- C10: `clear()` on a closed container leaves the file system alone
(close already ran) and reinitializes the container to the open, empty
initial state, after which `append` and `get` succeed again. -/
theorem claim10_clear_reopens {V : Type} (sz : V → Option Nat) (w : World V)
    (a : BigArray V) (v : V) (k : Nat)
    (hclosed : a.closed = true) (hsz : sz v = some k)
    (hk : k < BIGARRAY_CHUNK_SIZE) :
    BigArray.clear w a = (w, initBA V) ∧
    (initBA V).closed = false ∧
    ∃ w2 a2, BigArray.append sz w (initBA V) v = (Except.ok (), w2, a2) ∧
      (BigArray.getItem w2 a2 0).1 = Except.ok v := by
  refine ⟨?_, rfl, w, { initBA V with chunks := [Chunk.mem [v]], size_counter := some (0 + k) }, ?_, ?_⟩
  · simp [BigArray.clear, BigArray.close, hclosed]
  · have hs : ¬ (BIGARRAY_CHUNK_SIZE ≤ k) := by omega
    have hm : ¬ (sysMaxsize ≤ 1) := by decide
    simp [BigArray.append, initBA, appendSizing, appendSpill, hsz, hs, hm, sysMaxsize]
  · have hm0 : sysMaxsize ≠ 0 := by decide
    simp [BigArray.getItem, BigArray.len, initBA, Chunk.pyLen, hm0,
          Nat.div_eq_of_lt, Nat.mod_eq_of_lt]

/-- Witness for C10 on a concrete closed container. -/
theorem claim10_clear_reopens_witness :
    BigArray.clear w0N closedNat = (w0N, initBA Nat) ∧
    (initBA Nat).closed = false ∧
    ∃ w2 a2, BigArray.append sz1 w0N (initBA Nat) 7 = (Except.ok (), w2, a2) ∧
      (BigArray.getItem w2 a2 0).1 = Except.ok 7 :=
  claim10_clear_reopens sz1 w0N closedNat 7 1 rfl rfl (by decide)

/-- C9 (amended): appending an unhashable value while sizing is still
undetermined raises TypeError from the memoized size estimator, but only
after the value has been appended to the open chunk — the mutation
survives the exception; with an explicit chunk-length override the same
append succeeds outright. -/
theorem claim9_unhashable_append (w : World PyVal) (a : BigArray PyVal)
    (v : PyVal) (l : List PyVal) (s : Nat)
    (hclosed : a.closed = false)
    (hlast : a.chunks.getLast? = some (Chunk.mem l))
    (hund : a.chunk_length = sysMaxsize)
    (hs : a.size_counter = some s)
    (hv : pyHashable v = false) :
    BigArray.append sizeOfMemo w a v =
      (Except.error (PyErr.typeError ("unhashable type")), w,
       { a with chunks := a.chunks.dropLast ++ [Chunk.mem (l ++ [v])] }) ∧
    ∀ cs cl : Nat, cs ≠ BIGARRAY_CHUNK_SIZE →
      (BigArray.append sizeOfMemo w (BigArray.init PyVal cs cl) v).1 =
        Except.ok () := by
  constructor
  · simp [BigArray.append, hclosed, hlast, appendSizing, hs, hund, sizeOfMemo, hv]
  · intro cs cl hcs
    by_cases h1 : cs ≤ 1
    · simp [BigArray.append, BigArray.init, initBA, hcs, appendSizing, appendSpill,
            dumpOk, dumpWith, h1]
    · simp [BigArray.append, BigArray.init, initBA, hcs, appendSizing, appendSpill,
            dumpOk, dumpWith, h1]

/-- Witness for C9 on a fresh adaptive container and an empty list
value. -/
theorem claim9_unhashable_append_witness :
    BigArray.append sizeOfMemo (⟨[], 0⟩ : World PyVal) (initBA PyVal) (PyVal.list []) =
      (Except.error (PyErr.typeError ("unhashable type")), (⟨[], 0⟩ : World PyVal),
       { initBA PyVal with
           chunks := (initBA PyVal).chunks.dropLast ++ [Chunk.mem ([] ++ [PyVal.list []])] }) ∧
    ∀ cs cl : Nat, cs ≠ BIGARRAY_CHUNK_SIZE →
      (BigArray.append sizeOfMemo (⟨[], 0⟩ : World PyVal) (BigArray.init PyVal cs cl) (PyVal.list [])).1 =
        Except.ok () :=
  claim9_unhashable_append (⟨[], 0⟩ : World PyVal) (initBA PyVal) (PyVal.list []) [] 0
    rfl rfl rfl rfl rfl

/-- Counterexample for C9 as stated: the claim says the TypeError is
raised instead of appending the element, but after the failing append
the open chunk does contain the element. -/
theorem claim9_mutation_survives_counterexample :
    (BigArray.append sizeOfMemo (⟨[], 0⟩ : World PyVal) (initBA PyVal) (PyVal.list [])).1 =
      Except.error (PyErr.typeError ("unhashable type")) ∧
    ((BigArray.append sizeOfMemo (⟨[], 0⟩ : World PyVal) (initBA PyVal) (PyVal.list [])).2.2).chunks =
      [Chunk.mem [PyVal.list []]] :=
  ⟨rfl, rfl⟩

/-- C8 (amended): `_dump` converts OS-level failures (temp-file creation
and writing) into `SqlmapSystemException` carrying the OS error text and
the disk-space/TEMP remediation hint, while serialization and
compression failures (which are not OS errors) propagate unchanged. -/
theorem claim8_dump_errors {V : Type} (w : World V) (a : BigArray V)
    (chunk : List V) (os m : String) :
    dumpWith (DumpFault.mkstempFail os) w a chunk =
      (Except.error (PyErr.sqlmapSystemException (dumpErrMsg os)), w, a) ∧
    (dumpWith (DumpFault.writeFail os) w a chunk).1 =
      Except.error (PyErr.sqlmapSystemException (dumpErrMsg os)) ∧
    (dumpWith (DumpFault.pickleFail m) w a chunk).1 =
      Except.error (PyErr.pickleError m) ∧
    (dumpWith (DumpFault.zlibFail m) w a chunk).1 =
      Except.error (PyErr.zlibError m) ∧
    dumpErrMsg os =
      "exception occurred while storing data to a temporary file (" ++ (os ++ dumpErrHint) ∧
    (dumpWith DumpFault.ok w a chunk).1 = Except.ok w.next :=
  ⟨rfl, rfl, rfl, rfl, rfl, rfl⟩

/-- Counterexample for C8 as stated: a serialization failure inside
`_dump` escapes as the raw pickling error, not as the storage error the
claim requires for every failure. -/
theorem claim8_pickle_escape_counterexample :
    (dumpWith (DumpFault.pickleFail ("cannot pickle lambda")) w0N (initBA Nat) [1]).1 =
      Except.error (PyErr.pickleError ("cannot pickle lambda")) ∧
    ∀ msg : String,
      (dumpWith (DumpFault.pickleFail ("cannot pickle lambda")) w0N (initBA Nat) [1]).1 ≠
        Except.error (PyErr.sqlmapSystemException msg) := by
  refine ⟨rfl, ?_⟩
  intro msg h
  simp [dumpWith] at h

/-- C3 (amended): on a closed container, `append`, `extend`, `pop`,
`get`, `set` and `reverse` raise the closed-container ValueError and
`index` raises its not-found ValueError, but `len` returns 0, `count`
returns 0, iteration yields nothing, and `clear` reinitializes the
container — these four do not fail. -/
theorem claim3_closed_operations {V : Type} [DecidableEq V] [ToString V]
    (sz : V → Option Nat) (w : World V) (a : BigArray V) (v : V)
    (vs : List V) (key : Int) (hc : a.closed = true) :
    (BigArray.append sz w a v).1 = Except.error (PyErr.valueError closedMsg) ∧
    (BigArray.extend sz w a vs).1 = Except.error (PyErr.valueError closedMsg) ∧
    (BigArray.pop w a).1 = Except.error (PyErr.valueError closedMsg) ∧
    (BigArray.getItem w a key).1 = Except.error (PyErr.valueError closedMsg) ∧
    (BigArray.setItem w a key v).1 = Except.error (PyErr.valueError closedMsg) ∧
    (BigArray.reverseOp sz w a).1 = Except.error (PyErr.valueError closedMsg) ∧
    (BigArray.indexOf w a v 0 none).1 =
      Except.error (PyErr.valueError (toString v ++ " is not in BigArray")) ∧
    BigArray.len a = 0 ∧
    (BigArray.count w a v).1 = Except.ok 0 ∧
    (BigArray.iterToList w a).1 = Except.ok [] ∧
    (BigArray.clear w a).2 = initBA V := by
  refine ⟨?_, ?_, ?_, ?_, ?_, ?_, ?_, ?_, ?_, ?_, ?_⟩
  · simp [BigArray.append, hc]
  · simp [BigArray.extend, hc]
  · simp [BigArray.pop, hc]
  · simp [BigArray.getItem, hc]
  · simp [BigArray.setItem, hc]
  · simp [BigArray.reverseOp, hc]
  · simp [BigArray.indexOf, BigArray.len, hc, indexGo]
  · simp [BigArray.len, hc]
  · simp [BigArray.count, BigArray.iterToList, BigArray.len, hc, iterGo]
  · simp [BigArray.iterToList, BigArray.len, hc, iterGo]
  · simp [BigArray.clear]

/-- Witness for C3 on a concrete closed container. -/
theorem claim3_closed_operations_witness :
    (BigArray.append sz1 w0N closedNat 5).1 = Except.error (PyErr.valueError closedMsg) ∧
    (BigArray.extend sz1 w0N closedNat [1]).1 = Except.error (PyErr.valueError closedMsg) ∧
    (BigArray.pop w0N closedNat).1 = Except.error (PyErr.valueError closedMsg) ∧
    (BigArray.getItem w0N closedNat 0).1 = Except.error (PyErr.valueError closedMsg) ∧
    (BigArray.setItem w0N closedNat 0 5).1 = Except.error (PyErr.valueError closedMsg) ∧
    (BigArray.reverseOp sz1 w0N closedNat).1 = Except.error (PyErr.valueError closedMsg) ∧
    (BigArray.indexOf w0N closedNat 5 0 none).1 =
      Except.error (PyErr.valueError (toString 5 ++ " is not in BigArray")) ∧
    BigArray.len closedNat = 0 ∧
    (BigArray.count w0N closedNat 5).1 = Except.ok 0 ∧
    (BigArray.iterToList w0N closedNat).1 = Except.ok [] ∧
    (BigArray.clear w0N closedNat).2 = initBA Nat :=
  claim3_closed_operations sz1 w0N closedNat 5 [1] 0 rfl

/-- Counterexample for C3 as stated: the claim says every public
operation on a closed container fails with a UsageError, but `len`
returns 0, `count` returns 0, iteration yields the empty sequence and
`clear` reinitializes the container (its result is open again) — none of
them raises. -/
theorem claim3_nonfailing_closed_ops_counterexample :
    BigArray.len closedNat = 0 ∧
    (BigArray.count w0N closedNat 5).1 = Except.ok 0 ∧
    (BigArray.iterToList w0N closedNat).1 = Except.ok [] ∧
    ((BigArray.clear w0N closedNat).2).closed = false :=
  ⟨rfl, rfl, rfl, rfl⟩

/-- Counterexample for C1 as stated: with the (deliberately small) chunk
length 0, one appended element cannot be read back — `get(0)` raises
IndexError because the computed total length collapses to 0. -/
theorem claim1_chunk_length_zero_counterexample :
    (BigArray.extend sz1 w0N (BigArray.init Nat 0 9) [7]).1 = Except.ok () ∧
    (readAll [0] (BigArray.extend sz1 w0N (BigArray.init Nat 0 9) [7]).2.1
        (BigArray.extend sz1 w0N (BigArray.init Nat 0 9) [7]).2.2).1 =
      [Except.error (PyErr.indexError oorMsg)] ∧
    (readAll [0] (BigArray.extend sz1 w0N (BigArray.init Nat 0 9) [7]).2.1
        (BigArray.extend sz1 w0N (BigArray.init Nat 0 9) [7]).2.2).1 ≠
      [Except.ok 7] := by
  refine ⟨rfl, rfl, ?_⟩
  intro h
  rw [show (readAll [0] (BigArray.extend sz1 w0N (BigArray.init Nat 0 9) [7]).2.1
        (BigArray.extend sz1 w0N (BigArray.init Nat 0 9) [7]).2.2).1 =
      [Except.error (PyErr.indexError oorMsg)] from rfl] at h
  simp at h

/-- Counterexample for C4 as stated: after writing 99 through the cache
at index 3 (the last slot of spilled chunk 1) and popping twice, the
second pop promotes chunk 1 by re-reading its stale file and returns 3,
not the value 99 the claim requires to be observed after promotion. -/
theorem claim4_stale_promotion_counterexample :
    stDirty.1 = Except.ok () ∧
    c4pop1.1 = Except.ok 4 ∧
    c4pop2.1 = Except.ok 3 ∧
    c4pop2.1 ≠ Except.ok 99 := by
  refine ⟨rfl, rfl, rfl, ?_⟩
  intro h
  rw [show c4pop2.1 = Except.ok 3 from rfl] at h
  simp at h

/-- Counterexample for C7 as stated: a container with an unflushed dirty
cache slot reads 99 at index 3, but the reimport of its exported state
reads the stale persisted 3 — export/import does not reproduce `get` for
every container. -/
theorem claim7_dirty_cache_counterexample :
    (BigArray.getItem stDirty.2.1 stDirty.2.2 3).1 = Except.ok 99 ∧
    (BigArray.getItem stDirty.2.1 (BigArray.setstate (BigArray.getstate stDirty.2.2)) 3).1 =
      Except.ok 3 ∧
    (BigArray.getItem stDirty.2.1 (BigArray.setstate (BigArray.getstate stDirty.2.2)) 3).1 ≠
      (BigArray.getItem stDirty.2.1 stDirty.2.2 3).1 := by
  refine ⟨rfl, rfl, ?_⟩
  intro h
  rw [show (BigArray.getItem stDirty.2.1 (BigArray.setstate (BigArray.getstate stDirty.2.2)) 3).1 =
        Except.ok 3 from rfl,
      show (BigArray.getItem stDirty.2.1 stDirty.2.2 3).1 = Except.ok 99 from rfl] at h
  simp at h

/-- Counterexample for C6 as stated: a container constructed with the
explicit chunk length 2 starts `Fixed`, but `clear()` reinitializes the
sizing state to `Undetermined` (counter back to 0, sentinel length), and
a subsequent big append fixes the chunk length again — to 1, a second
fixing, with estimation happening despite the explicit construction-time
override. -/
theorem claim6_clear_resets_sizing_counterexample :
    (BigArray.init Nat 2 9).chunk_length = 2 ∧
    (BigArray.init Nat 2 9).size_counter = none ∧
    ((BigArray.clear w0N (BigArray.init Nat 2 9)).2).size_counter = some 0 ∧
    ((BigArray.clear w0N (BigArray.init Nat 2 9)).2).chunk_length = sysMaxsize ∧
    ((BigArray.append (fun _ => some BIGARRAY_CHUNK_SIZE)
        (BigArray.clear w0N (BigArray.init Nat 2 9)).1
        (BigArray.clear w0N (BigArray.init Nat 2 9)).2 7).2.2).chunk_length = 1 := by
  refine ⟨by decide, by decide, by decide, by decide, by decide⟩

/-- The fault-free dump touches only the filename registry and the file
system. -/
theorem dumpOk_fields {V : Type} (w : World V) (a : BigArray V) (c : List V) :
    (dumpOk w a c).1 = Except.ok w.next ∧
    (dumpOk w a c).2.1 = { fs := (w.next, c) :: w.fs, next := w.next + 1 } ∧
    (dumpOk w a c).2.2 = { a with filenames := w.next :: a.filenames } :=
  ⟨rfl, rfl, rfl⟩

/-- The flush half of `_checkcache` never touches the sizing fields. -/
theorem flushStep_sizing {V : Type} (w : World V) (a : BigArray V) (target : Nat) :
    ((flushStep w a target).2.2).size_counter = a.size_counter ∧
    ((flushStep w a target).2.2).chunk_length = a.chunk_length := by
  cases hc : a.cache with
  | none => simp [flushStep, hc]
  | some c =>
    by_cases h1 : c.index = target
    · simp [flushStep, hc, h1]
    · by_cases h2 : c.dirty
      · by_cases h3 : c.index < a.chunks.length <;>
          simp [flushStep, hc, h1, h2, h3, dumpOk, dumpWith]
      · simp [flushStep, hc, h1, h2]

/-- The load half of `_checkcache` never touches the sizing fields. -/
theorem doLoad_sizing {V : Type} (w : World V) (a : BigArray V) (target : Nat) :
    ((doLoad w a target).2.2).size_counter = a.size_counter ∧
    ((doLoad w a target).2.2).chunk_length = a.chunk_length := by
  unfold doLoad
  split
  · exact ⟨rfl, rfl⟩
  · split <;> exact ⟨rfl, rfl⟩
  · exact ⟨rfl, rfl⟩

/-- The cache-targeting step never touches the sizing fields. -/
theorem loadStep_sizing {V : Type} (w : World V) (a : BigArray V) (target : Nat) :
    ((loadStep w a target).2.2).size_counter = a.size_counter ∧
    ((loadStep w a target).2.2).chunk_length = a.chunk_length := by
  cases hc : a.cache with
  | none => simpa [loadStep, hc] using doLoad_sizing w a target
  | some c =>
    by_cases h1 : c.index = target
    · simp [loadStep, hc, h1]
    · simpa [loadStep, hc, h1] using doLoad_sizing w a target

/-- `_checkcache` never touches the sizing fields. -/
theorem checkcache_sizing {V : Type} (w : World V) (a : BigArray V) (target : Nat) :
    ((_checkcache w a target).2.2).size_counter = a.size_counter ∧
    ((_checkcache w a target).2.2).chunk_length = a.chunk_length := by
  unfold _checkcache
  rcases hf : flushStep w a target with ⟨r, w1, a1⟩
  have hfs := flushStep_sizing w a target
  rw [hf] at hfs
  cases r with
  | ok u =>
    have hls := loadStep_sizing w1 a1 target
    exact ⟨hls.1.trans hfs.1, hls.2.trans hfs.2⟩
  | error e => simpa using hfs

/-- The spilled-read continuation never touches the sizing fields. -/
theorem getSpilled_sizing {V : Type} (w : World V) (a : BigArray V)
    (idx off : Nat) :
    ((getSpilled w a idx off).2.2).size_counter = a.size_counter ∧
    ((getSpilled w a idx off).2.2).chunk_length = a.chunk_length := by
  have h := checkcache_sizing w a idx
  rcases hcc : _checkcache w a idx with ⟨r, w1, a1⟩
  rw [hcc] at h
  cases r with
  | ok u =>
      cases hc : a1.cache with
      | none => simpa [getSpilled, hcc, hc] using h
      | some c =>
          cases hd : c.data[off]? with
          | none => simpa [getSpilled, hcc, hc, hd] using h
          | some v => simpa [getSpilled, hcc, hc, hd] using h
  | error e => simpa [getSpilled, hcc] using h

/-- The spilled-write continuation never touches the sizing fields. -/
theorem setSpilled_sizing {V : Type} (w : World V) (a : BigArray V)
    (idx off : Nat) (v : V) :
    ((setSpilled w a idx off v).2.2).size_counter = a.size_counter ∧
    ((setSpilled w a idx off v).2.2).chunk_length = a.chunk_length := by
  have h := checkcache_sizing w a idx
  rcases hcc : _checkcache w a idx with ⟨r, w1, a1⟩
  rw [hcc] at h
  cases r with
  | ok u =>
      cases hc : a1.cache with
      | none => simpa [setSpilled, hcc, hc] using h
      | some c =>
          by_cases hd : off < c.data.length
          · simpa [setSpilled, hcc, hc, hd] using h
          · simpa [setSpilled, hcc, hc, hd] using h
  | error e => simpa [setSpilled, hcc] using h

/-- `__getitem__` never touches the sizing fields. -/
theorem getItem_sizing {V : Type} (w : World V) (a : BigArray V) (key : Int) :
    ((BigArray.getItem w a key).2.2).size_counter = a.size_counter ∧
    ((BigArray.getItem w a key).2.2).chunk_length = a.chunk_length := by
  unfold BigArray.getItem
  dsimp only
  repeat' split
  all_goals first
    | exact ⟨rfl, rfl⟩
    | exact getSpilled_sizing w a _ _

/-- `__setitem__` never touches the sizing fields. -/
theorem setItem_sizing {V : Type} (w : World V) (a : BigArray V) (key : Int)
    (v : V) :
    ((BigArray.setItem w a key v).2.2).size_counter = a.size_counter ∧
    ((BigArray.setItem w a key v).2.2).chunk_length = a.chunk_length := by
  unfold BigArray.setItem
  dsimp only
  repeat' split
  all_goals first
    | exact ⟨rfl, rfl⟩
    | exact setSpilled_sizing w a _ _ v

/-- The final element pop never touches the sizing fields. -/
theorem popLastElem_sizing {V : Type} (w : World V) (a : BigArray V) :
    ((popLastElem w a).2.2).size_counter = a.size_counter ∧
    ((popLastElem w a).2.2).chunk_length = a.chunk_length := by
  unfold popLastElem
  repeat' split
  all_goals exact ⟨rfl, rfl⟩

/-- Chunk promotion never touches the sizing fields. -/
theorem loadChunkLast_sizing {V : Type} (w : World V) (a : BigArray V) :
    ((loadChunkLast w a).2.2).size_counter = a.size_counter ∧
    ((loadChunkLast w a).2.2).chunk_length = a.chunk_length := by
  unfold loadChunkLast
  repeat' split
  all_goals exact ⟨rfl, rfl⟩

/-- `pop` never touches the sizing fields. -/
theorem pop_sizing {V : Type} (w : World V) (a : BigArray V) :
    ((BigArray.pop w a).2.2).size_counter = a.size_counter ∧
    ((BigArray.pop w a).2.2).chunk_length = a.chunk_length := by
  unfold BigArray.pop
  repeat' split
  all_goals first
    | exact ⟨rfl, rfl⟩
    | exact popLastElem_sizing w a
    | (rename_i heq
       have h1 := loadChunkLast_sizing w { a with chunks := a.chunks.dropLast }
       rw [heq] at h1
       rename_i w1 a1
       have h2 := popLastElem_sizing w1 a1
       exact ⟨h2.1.trans h1.1, h2.2.trans h1.2⟩)
    | (rename_i heq
       have h1 := loadChunkLast_sizing w { a with chunks := a.chunks.dropLast }
       rw [heq] at h1
       simpa using h1)

/-- The spill step preserves the sizing fields (it dumps and rewires
chunks only). -/
theorem appendSpill_sizing {V : Type} (w : World V) (a : BigArray V)
    (l1 : List V) :
    ((appendSpill w a l1).2.2).size_counter = a.size_counter ∧
    ((appendSpill w a l1).2.2).chunk_length = a.chunk_length := by
  unfold appendSpill
  by_cases h : a.chunk_length ≤ l1.length
  · simp [h, dumpOk, dumpWith]
  · simp [h]

/-- With the size counter disabled, `append` keeps it disabled and never
changes the chunk length. -/
theorem append_sizing_none {V : Type} (sz : V → Option Nat) (w : World V)
    (a : BigArray V) (v : V) (h : a.size_counter = none) :
    ((BigArray.append sz w a v).2.2).size_counter = none ∧
    ((BigArray.append sz w a v).2.2).chunk_length = a.chunk_length := by
  unfold BigArray.append
  dsimp only
  split
  · exact ⟨h, rfl⟩
  split
  · exact ⟨h, rfl⟩
  · exact ⟨h, rfl⟩
  · rename_i l hl
    have := appendSpill_sizing w
      { a with chunks := a.chunks.dropLast ++ [Chunk.mem (l ++ [v])] } (l ++ [v])
    simpa [appendSizing, h] using this

/-- With the size counter disabled, `append` never consults the size
estimator: its result is the same for any two estimators. -/
theorem append_sz_irrelevant {V : Type} (sz sz' : V → Option Nat) (w : World V)
    (a : BigArray V) (v : V) (h : a.size_counter = none) :
    BigArray.append sz w a v = BigArray.append sz' w a v := by
  unfold BigArray.append
  dsimp only
  split
  · rfl
  split <;> simp [appendSizing, h]

/-- With the size counter disabled, the `extend` loop keeps it disabled,
never changes the chunk length, and never consults the estimator. -/
theorem extendGo_sizing_none {V : Type} (sz sz' : V → Option Nat) (vs : List V) :
    ∀ (w : World V) (a : BigArray V), a.size_counter = none →
    ((extendGo sz vs w a).2.2).size_counter = none ∧
    ((extendGo sz vs w a).2.2).chunk_length = a.chunk_length ∧
    extendGo sz vs w a = extendGo sz' vs w a := by
  induction vs with
  | nil => intro w a h; exact ⟨h, rfl, rfl⟩
  | cons v vs ih =>
    intro w a h
    have hirr := append_sz_irrelevant sz sz' w a v h
    have hfields := append_sizing_none sz w a v h
    rcases happ : BigArray.append sz w a v with ⟨r, w1, a1⟩
    rw [happ] at hfields
    cases r with
    | ok u =>
      have := ih w1 a1 hfields.1
      refine ⟨?_, ?_, ?_⟩
      · simpa [extendGo, happ] using this.1
      · have h2 := this.2.1
        simpa [extendGo, happ, hfields.2] using h2.trans hfields.2
      · simp [extendGo, happ, ← hirr, this.2.2]
    | error e =>
      refine ⟨?_, ?_, ?_⟩
      · simpa [extendGo, happ] using hfields.1
      · simpa [extendGo, happ] using hfields.2
      · simp [extendGo, happ, ← hirr]

/-- With the size counter disabled, `extend` keeps it disabled, never
changes the chunk length, and never consults the estimator. -/
theorem extend_sizing_none {V : Type} (sz sz' : V → Option Nat) (w : World V)
    (a : BigArray V) (vs : List V) (h : a.size_counter = none) :
    ((BigArray.extend sz w a vs).2.2).size_counter = none ∧
    ((BigArray.extend sz w a vs).2.2).chunk_length = a.chunk_length ∧
    BigArray.extend sz w a vs = BigArray.extend sz' w a vs := by
  unfold BigArray.extend
  split
  · exact ⟨h, rfl, rfl⟩
  · have := extendGo_sizing_none sz sz' vs w a h
    exact ⟨this.1, this.2.1, this.2.2⟩

/-- One public operation on a container with disabled size counter:
the counter stays disabled, the chunk length is unchanged, and the
result does not depend on the size estimator. -/
theorem stepOp_sizing_none {V : Type} (sz sz' : V → Option Nat) (w : World V)
    (a : BigArray V) (o : Op V) (h : a.size_counter = none) :
    ((stepOp sz w a o).2).size_counter = none ∧
    ((stepOp sz w a o).2).chunk_length = a.chunk_length ∧
    stepOp sz w a o = stepOp sz' w a o := by
  cases o with
  | app v =>
    have h1 := append_sizing_none sz w a v h
    have h2 := append_sz_irrelevant sz sz' w a v h
    exact ⟨h1.1, h1.2, by simp [stepOp, h2]⟩
  | ext vs =>
    have h1 := extend_sizing_none sz sz' w a vs h
    exact ⟨h1.1, h1.2.1, by simp [stepOp, h1.2.2]⟩
  | popOp =>
    have h1 := pop_sizing w a
    exact ⟨h1.1.trans h, h1.2, rfl⟩
  | getOp key =>
    have h1 := getItem_sizing w a key
    exact ⟨h1.1.trans h, h1.2, rfl⟩
  | setOp key v =>
    have h1 := setItem_sizing w a key v
    exact ⟨h1.1.trans h, h1.2, rfl⟩

/-- A whole trace of public operations on a container with disabled size
counter: the counter stays disabled, the chunk length never changes, and
the run does not depend on the size estimator. -/
theorem runOps_sizing_none {V : Type} (sz sz' : V → Option Nat)
    (ops : List (Op V)) :
    ∀ (w : World V) (a : BigArray V), a.size_counter = none →
    ((runOps sz ops w a).2).size_counter = none ∧
    ((runOps sz ops w a).2).chunk_length = a.chunk_length ∧
    runOps sz ops w a = runOps sz' ops w a := by
  induction ops with
  | nil => intro w a h; exact ⟨h, rfl, rfl⟩
  | cons o os ih =>
    intro w a h
    have hs := stepOp_sizing_none sz sz' w a o h
    have := ih (stepOp sz w a o).1 (stepOp sz w a o).2 hs.1
    refine ⟨?_, ?_, ?_⟩
    · simpa [runOps] using this.1
    · have h2 := this.2.1
      simpa [runOps] using h2.trans hs.2.1
    · simp [runOps, this.2.2, ← hs.2.2]

/-- C6 (amended): between reinitializations the sizing state moves from
Undetermined to Fixed at most once.  An explicit chunk-length override
at construction starts Fixed with the estimator never consulted; once
the counter is disabled no trace of public operations re-enables it or
changes the chunk length; an append that makes the accumulated estimate
cross the threshold fixes the chunk length to `max(open length, 1)` and
disables the counter, while a non-crossing append merely accumulates.
(`clear`, `reverse` and `__setstate__` reinitialize the container and
restart the lifetime; see the counterexample.) -/
theorem claim6_adaptive_sizing {V : Type} :
    (∀ cs cl : Nat, cs ≠ BIGARRAY_CHUNK_SIZE →
       (BigArray.init V cs cl).size_counter = none ∧
       (BigArray.init V cs cl).chunk_length = cs) ∧
    (∀ (sz : V → Option Nat) (ops : List (Op V)) (w : World V) (a : BigArray V),
       a.size_counter = none →
       ((runOps sz ops w a).2).size_counter = none ∧
       ((runOps sz ops w a).2).chunk_length = a.chunk_length) ∧
    (∀ (sz sz' : V → Option Nat) (ops : List (Op V)) (w : World V)
       (a : BigArray V), a.size_counter = none →
       runOps sz ops w a = runOps sz' ops w a) ∧
    (∀ (sz : V → Option Nat) (w : World V) (a : BigArray V) (v : V)
       (s k : Nat) (l : List V),
       a.closed = false → a.chunks.getLast? = some (Chunk.mem l) →
       a.chunk_length = sysMaxsize → a.size_counter = some s → sz v = some k →
       (BIGARRAY_CHUNK_SIZE ≤ s + k →
         ((BigArray.append sz w a v).2.2.chunk_length = max (l.length + 1) 1 ∧
          (BigArray.append sz w a v).2.2.size_counter = none)) ∧
       (s + k < BIGARRAY_CHUNK_SIZE →
         ((BigArray.append sz w a v).2.2.chunk_length = sysMaxsize ∧
          (BigArray.append sz w a v).2.2.size_counter = some (s + k)))) := by
  refine ⟨?_, ?_, ?_, ?_⟩
  · intro cs cl h
    simp [BigArray.init, initBA, h]
  · intro sz ops w a h
    have := runOps_sizing_none sz sz ops w a h
    exact ⟨this.1, this.2.1⟩
  · intro sz sz' ops w a h
    exact (runOps_sizing_none sz sz' ops w a h).2.2
  · intro sz w a v s k l hclosed hlast hund hs hszv
    constructor
    · intro hcross
      have hev : BigArray.append sz w a v =
          appendSpill w
            { a with chunks := a.chunks.dropLast ++ [Chunk.mem (l ++ [v])]
                     chunk_length := max (l ++ [v]).length 1
                     size_counter := none } (l ++ [v]) := by
        simp [BigArray.append, hclosed, hlast, appendSizing, hs, hund, hszv, hcross]
      rw [hev]
      refine ⟨((appendSpill_sizing w _ _).2).trans ?_, ((appendSpill_sizing w _ _).1).trans ?_⟩
      · simp
      · rfl
    · intro hncross
      have hnc : ¬ (BIGARRAY_CHUNK_SIZE ≤ s + k) := by omega
      have hev : BigArray.append sz w a v =
          appendSpill w
            { a with chunks := a.chunks.dropLast ++ [Chunk.mem (l ++ [v])]
                     size_counter := some (s + k) } (l ++ [v]) := by
        simp [BigArray.append, hclosed, hlast, appendSizing, hs, hund, hszv, hnc]
      rw [hev]
      refine ⟨((appendSpill_sizing w _ _).2).trans ?_, ((appendSpill_sizing w _ _).1).trans ?_⟩
      · exact hund
      · rfl

/-- Witness for C6 at concrete inputs: override 2 starts Fixed; a trace
of appends, pops, reads and writes on a disabled-counter container
changes nothing about sizing and ignores the estimator; a crossing
append on a fresh adaptive container fixes length 1, a tiny one keeps
the sentinel. -/
theorem claim6_adaptive_sizing_witness :
    ((BigArray.init Nat 2 9).size_counter = none ∧
     (BigArray.init Nat 2 9).chunk_length = 2) ∧
    (((runOps sz1 [Op.app 5, Op.setOp 0 6, Op.getOp 0, Op.popOp] w0N
         (BigArray.init Nat 2 9)).2).size_counter = none ∧
     ((runOps sz1 [Op.app 5, Op.setOp 0 6, Op.getOp 0, Op.popOp] w0N
         (BigArray.init Nat 2 9)).2).chunk_length = (BigArray.init Nat 2 9).chunk_length) ∧
    (runOps sz1 [Op.app 5, Op.setOp 0 6, Op.getOp 0, Op.popOp] w0N
       (BigArray.init Nat 2 9) =
     runOps (fun _ => none) [Op.app 5, Op.setOp 0 6, Op.getOp 0, Op.popOp] w0N
       (BigArray.init Nat 2 9)) ∧
    ((BigArray.append (fun _ => some BIGARRAY_CHUNK_SIZE) w0N (initBA Nat) 7).2.2.chunk_length =
       max (List.length ([] : List Nat) + 1) 1 ∧
     (BigArray.append (fun _ => some BIGARRAY_CHUNK_SIZE) w0N (initBA Nat) 7).2.2.size_counter =
       none) ∧
    ((BigArray.append sz1 w0N (initBA Nat) 7).2.2.chunk_length = sysMaxsize ∧
     (BigArray.append sz1 w0N (initBA Nat) 7).2.2.size_counter = some (0 + 1)) := by
  refine ⟨?_, ?_, ?_, ?_, ?_⟩
  · exact (claim6_adaptive_sizing (V := Nat)).1 2 9 (by decide)
  · exact (claim6_adaptive_sizing (V := Nat)).2.1 sz1
      [Op.app 5, Op.setOp 0 6, Op.getOp 0, Op.popOp] w0N (BigArray.init Nat 2 9)
      (by decide)
  · exact (claim6_adaptive_sizing (V := Nat)).2.2.1 sz1 (fun _ => none)
      [Op.app 5, Op.setOp 0 6, Op.getOp 0, Op.popOp] w0N (BigArray.init Nat 2 9)
      (by decide)
  · exact ((claim6_adaptive_sizing (V := Nat)).2.2.2 (fun _ => some BIGARRAY_CHUNK_SIZE)
      w0N (initBA Nat) 7 0 BIGARRAY_CHUNK_SIZE [] rfl rfl rfl rfl rfl).1 (by decide)
  · exact ((claim6_adaptive_sizing (V := Nat)).2.2.2 sz1
      w0N (initBA Nat) 7 0 1 [] rfl rfl rfl rfl rfl).2 (by decide)

/-- The length formula: for an open container whose last chunk is
resident, the total element count is `(number of body chunks) *
chunk_length` plus the length of the open chunk. -/
theorem len_formula {V : Type} {a : BigArray V} {body : List (Chunk V)}
    {t : List V} (hcl : a.closed = false) (hsh : a.chunks = body ++ [Chunk.mem t]) :
    a.len = body.length * a.chunk_length + t.length := by
  unfold BigArray.len
  rw [hsh]
  simp only [hcl, if_false, Bool.false_eq_true, List.getLastD_concat,
    List.length_append, List.length_cons, List.length_nil, Chunk.pyLen]
  cases body with
  | nil => simp
  | cons c rest => simp [Nat.succ_mul, Nat.add_comm, Nat.add_mul]

/-- The length formula specialized to well-formed containers. -/
theorem len_eq {V : Type} {w : World V} {a : BigArray V} {body : List (Chunk V)}
    {t : List V} (hW : WFr w a body t) :
    a.len = body.length * a.chunk_length + t.length :=
  len_formula hW.notClosed hW.chunksEq

/-- A clean (or absent) cache slot makes the flush half of `_checkcache`
a no-op. -/
theorem flushStep_clean {V : Type} (w : World V) (a : BigArray V) (target : Nat)
    (h : ∀ c, a.cache = some c → c.dirty = false) :
    flushStep w a target = (Except.ok (), w, a) := by
  cases hc : a.cache with
  | none => simp [flushStep, hc]
  | some c =>
    by_cases h1 : c.index = target
    · simp [flushStep, hc, h1]
    · simp [flushStep, hc, h1, h c hc]

/-- Loading a materializable placeholder into the cache slot. -/
theorem doLoad_ok {V : Type} (w : World V) (a : BigArray V) (target : Nat)
    (ch : Chunk V) (d : List V) (hch : a.chunks[target]? = some ch)
    (hd : chunkData w ch = some d) :
    doLoad w a target = (Except.ok (), w, { a with cache := some ⟨target, d, false⟩ }) := by
  cases ch with
  | mem l =>
    simp only [chunkData, Option.some.injEq] at hd
    subst hd
    simp [doLoad, hch]
  | disk tok =>
    simp only [chunkData] at hd
    simp [doLoad, hch, hd]

/-- `_checkcache` under a clean coherent cache slot: the store and file
system are untouched and the slot ends up holding the target chunk's
materialized data, clean. -/
theorem checkcache_clean_spec {V : Type} (w : World V) (a : BigArray V)
    (target : Nat) (ch : Chunk V) (d : List V)
    (hclean : ∀ c, a.cache = some c → c.dirty = false ∧
      ∃ ch2, a.chunks[c.index]? = some ch2 ∧ chunkData w ch2 = some c.data)
    (hch : a.chunks[target]? = some ch) (hd : chunkData w ch = some d) :
    _checkcache w a target =
      (Except.ok (), w, { a with cache := some ⟨target, d, false⟩ }) := by
  have hflush := flushStep_clean w a target (fun c hc => (hclean c hc).1)
  unfold _checkcache
  rw [hflush]
  cases hc : a.cache with
  | none => simp [loadStep, hc, doLoad_ok w a target ch d hch hd]
  | some c0 =>
    by_cases h1 : c0.index = target
    · obtain ⟨hdirty, ch2, hch2, hdata⟩ := hclean c0 hc
      rw [h1, hch] at hch2
      injection hch2 with hch2
      subst hch2
      rw [hd] at hdata
      injection hdata with hdata
      have hc0 : some c0 = some (⟨target, d, false⟩ : Cache V) := by
        rw [hdata]
        obtain ⟨i0, d0, b0⟩ := c0
        simp only at h1 hdirty
        simp [h1, hdirty]
      simp only [loadStep, hc]
      rw [if_pos h1, ← hc0, ← hc]
    · simp [loadStep, hc, h1, doLoad_ok w a target ch d hch hd]

/-- Evaluation of `__getitem__` at an in-bounds natural key: the guard
chain falls through to the chunk-addressing match. -/
theorem getItem_eval {V : Type} (w : World V) (a : BigArray V) (i : Nat)
    (hcl : a.closed = false) (hlen0 : ¬ (a.len = 0)) (hle : i < a.len)
    (hL0 : ¬ (a.chunk_length = 0)) :
    BigArray.getItem w a (Int.ofNat i) =
      match a.chunks[i / a.chunk_length]? with
      | none => (Except.error (PyErr.indexError ("list index out of range")), w, a)
      | some (Chunk.mem l) =>
          match l[i % a.chunk_length]? with
          | some v => (Except.ok v, w, a)
          | none => (Except.error (PyErr.indexError ("list index out of range")), w, a)
      | some (Chunk.disk _) =>
          getSpilled w a (i / a.chunk_length) (i % a.chunk_length) := by
  have h1 : ¬ (a.closed = true) := by simp [hcl]
  have h2 : ¬ ((Int.ofNat i) < 0) := by
    simp only [Int.ofNat_eq_coe]
    omega
  have h3 : ¬ ((Int.ofNat i) < 0 ∨ (a.len : Int) ≤ Int.ofNat i) := by
    simp only [Int.ofNat_eq_coe]
    omega
  unfold BigArray.getItem
  dsimp only
  rw [if_neg h1, if_neg hlen0, if_neg h2, if_neg h3, if_neg hL0]
  rw [show (Int.ofNat i).toNat = i from rfl]

/-- A successful in-bounds read: `__getitem__` on a well-formed container
returns exactly the element that the specification-level addressing
computes, touches neither the store nor the file system, and preserves
well-formedness (only the cache slot may change). -/
theorem getItem_ok {V : Type} {w : World V} {a : BigArray V}
    {body : List (Chunk V)} {t : List V} (hW : WFr w a body t) (i : Nat)
    (hi : i < a.len) :
    ∃ v c2, specGet w a.chunk_length a.chunks i = some v ∧
      BigArray.getItem w a (Int.ofNat i) = (Except.ok v, w, { a with cache := c2 }) ∧
      WFr w { a with cache := c2 } body t := by
  have hL : 0 < a.chunk_length := hW.lpos
  have hlen := len_eq hW
  have htlt : t.length < a.chunk_length := hW.tlt
  have hdm := Nat.div_add_mod i a.chunk_length
  have hmod : i % a.chunk_length < a.chunk_length := Nat.mod_lt _ hL
  have hL0 : ¬ (a.chunk_length = 0) := by omega
  have hlen0 : ¬ (a.len = 0) := by omega
  by_cases hcase : i / a.chunk_length < body.length
  · -- the addressed chunk lies in the body
    have hchunks : a.chunks[i / a.chunk_length]? = some (body[i / a.chunk_length]) := by
      rw [hW.chunksEq, List.getElem?_append_left hcase]
      exact List.getElem?_eq_getElem hcase
    have hmem : body[i / a.chunk_length] ∈ body := List.getElem_mem hcase
    obtain ⟨d, hd, hdlen⟩ := hW.bodyOk _ hmem
    have hoff : i % a.chunk_length < d.length := by rw [hdlen]; exact hmod
    have hspec : specGet w a.chunk_length a.chunks i = some d[i % a.chunk_length] := by
      rw [specGet, hchunks]
      simp [hd, List.getElem?_eq_getElem hoff]
    cases hform : body[i / a.chunk_length] with
    | mem l =>
      have hdl : d = l := by
        rw [hform] at hd
        simpa [chunkData] using hd.symm
      subst hdl
      refine ⟨d[i % a.chunk_length], a.cache, hspec, ?_, ?_⟩
      · rw [hform] at hchunks
        rw [getItem_eval w a i hW.notClosed hlen0 hi hL0]
        simp only [hchunks]
        simp [List.getElem?_eq_getElem hoff]
      · exact hW
    | disk tok =>
      rw [hform] at hchunks hd
      have hcc := checkcache_clean_spec w a (i / a.chunk_length) (Chunk.disk tok) d
        (fun c hc => hW.cacheClean c hc) hchunks hd
      refine ⟨d[i % a.chunk_length], some ⟨i / a.chunk_length, d, false⟩, hspec, ?_, ?_⟩
      · rw [getItem_eval w a i hW.notClosed hlen0 hi hL0]
        simp only [hchunks]
        simp [getSpilled, hcc, List.getElem?_eq_getElem hoff]
      · exact
          { notClosed := hW.notClosed
            lpos := hW.lpos
            chunksEq := hW.chunksEq
            tlt := hW.tlt
            bodyOk := hW.bodyOk
            cacheClean := by
              intro c hc
              simp only at hc
              injection hc with hc
              subst hc
              exact ⟨rfl, Chunk.disk tok, hchunks, hd⟩ }
  · -- the addressed chunk is the open chunk
    have hble : body.length * a.chunk_length ≤ i := by
      by_contra hcon
      exact hcase ((Nat.div_lt_iff_lt_mul hL).2 (by omega))
    have hdiv : i / a.chunk_length = body.length := by
      have h1 : (body.length + 1) * a.chunk_length =
          body.length * a.chunk_length + a.chunk_length := Nat.succ_mul _ _
      have h2 : i < (body.length + 1) * a.chunk_length := by omega
      have h3 : i / a.chunk_length < body.length + 1 :=
        (Nat.div_lt_iff_lt_mul hL).2 (by omega)
      omega
    have hoff : i % a.chunk_length < t.length := by
      have : a.chunk_length * (i / a.chunk_length) =
          body.length * a.chunk_length := by rw [hdiv]; ring
      omega
    have hchunks : a.chunks[i / a.chunk_length]? = some (Chunk.mem t) := by
      rw [hW.chunksEq, hdiv, List.getElem?_append_right (Nat.le_refl _)]
      simp
    have hspec : specGet w a.chunk_length a.chunks i = some t[i % a.chunk_length] := by
      rw [specGet, hchunks]
      simp [chunkData, List.getElem?_eq_getElem hoff]
    refine ⟨t[i % a.chunk_length], a.cache, hspec, ?_, hW⟩
    rw [getItem_eval w a i hW.notClosed hlen0 hi hL0]
    simp only [hchunks]
    simp [List.getElem?_eq_getElem hoff]

/-- C7 (amended): for a well-formed container whose cache slot is clean
(no unflushed write), exporting the persistable state and reimporting it
yields a container of the same length whose reads agree with the
original at every index.  (A dirty cache slot breaks this — see the
counterexample.) -/
theorem claim7_export_import {V : Type} (w : World V) (a : BigArray V)
    (body : List (Chunk V)) (t : List V) (hW : WFr w a body t) :
    BigArray.len (BigArray.setstate (BigArray.getstate a)) = BigArray.len a ∧
    ∀ i : Nat, i < BigArray.len a →
      (BigArray.getItem w (BigArray.setstate (BigArray.getstate a)) (Int.ofNat i)).1 =
        (BigArray.getItem w a (Int.ofNat i)).1 := by
  have hWb : WFr w (BigArray.setstate (BigArray.getstate a)) body t :=
    { notClosed := rfl
      lpos := hW.lpos
      chunksEq := hW.chunksEq
      tlt := hW.tlt
      bodyOk := hW.bodyOk
      cacheClean := by
        intro c hc
        exact Option.noConfusion hc }
  constructor
  · rw [len_eq hWb, len_eq hW]
    rfl
  · intro i hi
    have hib : i < (BigArray.setstate (BigArray.getstate a)).len := by
      rw [len_eq hWb]
      rw [len_eq hW] at hi
      exact hi
    obtain ⟨v, c2, hs, hg, _⟩ := getItem_ok hW i hi
    obtain ⟨v', c2', hs', hg', _⟩ := getItem_ok hWb i hib
    have hv : v' = v := by
      have hsame : specGet w (BigArray.setstate (BigArray.getstate a)).chunk_length
          (BigArray.setstate (BigArray.getstate a)).chunks i =
          specGet w a.chunk_length a.chunks i := rfl
      rw [hsame, hs] at hs'
      injection hs' with hs'
      exact hs'.symm
    rw [hg, hg', hv]

/-- Witness for C7 on the concrete two-spilled-chunk container. -/
theorem claim7_export_import_witness :
    BigArray.len (BigArray.setstate (BigArray.getstate stTwoSpill)) =
      BigArray.len stTwoSpill ∧
    ∀ i : Nat, i < BigArray.len stTwoSpill →
      (BigArray.getItem wTwoSpill (BigArray.setstate (BigArray.getstate stTwoSpill))
         (Int.ofNat i)).1 =
        (BigArray.getItem wTwoSpill stTwoSpill (Int.ofNat i)).1 :=
  claim7_export_import wTwoSpill stTwoSpill [Chunk.disk 0, Chunk.disk 1] [4]
    { notClosed := rfl
      lpos := by decide
      chunksEq := rfl
      tlt := by decide
      bodyOk := by
        intro c hc
        simp only [List.mem_cons, List.not_mem_nil, or_false] at hc
        rcases hc with rfl | rfl
        · exact ⟨[0, 1], rfl, rfl⟩
        · exact ⟨[2, 3], rfl, rfl⟩
      cacheClean := by
        intro c hc
        exact Option.noConfusion hc }

/-- Looking a token up after a fresh file was created: older tokens are
unaffected. -/
theorem fsLookup_cons_ne {V : Type} (fs : List (Nat × List V)) (k tok : Nat)
    (d : List V) (h : k ≠ tok) : fsLookup ((k, d) :: fs) tok = fsLookup fs tok := by
  simp [fsLookup, h]

/-- Looking up the token of a just-created file. -/
theorem fsLookup_cons_eq {V : Type} (fs : List (Nat × List V)) (k : Nat)
    (d : List V) : fsLookup ((k, d) :: fs) k = some d := by
  simp [fsLookup]

/-- A fresh dump does not change the resolved content of older tokens. -/
theorem resolveD_push {V : Type} (w : World V) (d : List V) (tok : Nat)
    (h : tok < w.next) :
    resolveD (⟨(w.next, d) :: w.fs, w.next + 1⟩ : World V) tok = resolveD w tok := by
  have hne : w.next ≠ tok := by omega
  simp [resolveD, fsLookup_cons_ne _ _ _ _ hne]

/-- A freshly constructed container satisfies the append-phase invariant
with no spilled chunks, an empty open chunk and no logical content. -/
theorem init_inv {V : Type} (w : World V) (cs cl : Nat) (hcs : 1 ≤ cs) :
    Inv w (BigArray.init V cs cl) [] [] [] := by
  by_cases h : cs = BIGARRAY_CHUNK_SIZE
  · exact
      { notClosed := by simp [BigArray.init, initBA, h]
        lpos := by simp [BigArray.init, initBA, h, sysMaxsize]
        chunksEq := by simp [BigArray.init, initBA, h]
        cacheNone := by simp [BigArray.init, initBA, h]
        bodyOk := by intro tok htok; exact absurd htok (List.not_mem_nil _)
        fresh := by intro tok htok; exact absurd htok (List.not_mem_nil _)
        tlt := by simp [BigArray.init, initBA, h, sysMaxsize]
        flat := by simp
        sizing := Or.inr ⟨by simp [BigArray.init, initBA, h], rfl,
          0, by simp [BigArray.init, initBA, h], by simp, by simp [BIGARRAY_CHUNK_SIZE]⟩ }
  · exact
      { notClosed := by simp [BigArray.init, initBA, h]
        lpos := by simpa [BigArray.init, initBA, h] using hcs
        chunksEq := by simp [BigArray.init, initBA, h]
        cacheNone := by simp [BigArray.init, initBA, h]
        bodyOk := by intro tok htok; exact absurd htok (List.not_mem_nil _)
        fresh := by intro tok htok; exact absurd htok (List.not_mem_nil _)
        tlt := by simpa [BigArray.init, initBA, h] using hcs
        flat := by simp
        sizing := Or.inl (by simp [BigArray.init, initBA, h]) }

/-- One successful `append` preserves the append-phase invariant, the
logical content growing by the appended value.  The size estimate of the
value must be positive (as `sys.getsizeof` always is). -/
theorem append_inv {V : Type} {w : World V} {a : BigArray V} {toks : List Nat}
    {t xs : List V} (sz : V → Option Nat) (v : V) (k' : Nat)
    (hInv : Inv w a toks t xs) (hsz : sz v = some k') (hk : 1 ≤ k') :
    ∃ w' a' toks' t', BigArray.append sz w a v = (Except.ok (), w', a') ∧
      Inv w' a' toks' t' (xs ++ [v]) := by
  have hlast : a.chunks.getLast? = some (Chunk.mem t) := by
    rw [hInv.chunksEq]
    exact List.getLast?_concat _
  have hdrop : a.chunks.dropLast = toks.map Chunk.disk := by
    simp [hInv.chunksEq]
  rcases hInv.sizing with hnone | ⟨hmax, htnil, s, hs, hts, hthr⟩
  · by_cases hspill : a.chunk_length ≤ t.length + 1
    · have hLen : a.chunk_length = t.length + 1 := by
        have := hInv.tlt
        omega
      refine ⟨⟨(w.next, t ++ [v]) :: w.fs, w.next + 1⟩,
        { a with chunks := toks.map Chunk.disk ++ [Chunk.disk w.next, Chunk.mem []]
                 filenames := w.next :: a.filenames },
        toks ++ [w.next], [], ?_, ?_⟩
      · simp [BigArray.append, hInv.notClosed, hlast, appendSizing, hnone,
              appendSpill, dumpOk, dumpWith, hdrop, hspill]
      · refine
          { notClosed := hInv.notClosed
            lpos := hInv.lpos
            chunksEq := by simp
            cacheNone := hInv.cacheNone
            bodyOk := ?_
            fresh := ?_
            tlt := hInv.lpos
            flat := ?_
            sizing := Or.inl hnone }
        · intro tok htok
          rcases List.mem_append.1 htok with hold | hnew
          · obtain ⟨d, hd, hdl⟩ := hInv.bodyOk tok hold
            have hne : w.next ≠ tok := by
              have := hInv.fresh tok hold
              omega
            exact ⟨d, by simpa [fsLookup_cons_ne _ _ _ _ hne] using hd, hdl⟩
          · have : tok = w.next := by simpa using hnew
            subst this
            exact ⟨t ++ [v], fsLookup_cons_eq _ _ _, by simp [hLen]⟩
        · intro tok htok
          dsimp only
          rcases List.mem_append.1 htok with hold | hnew
          · have := hInv.fresh tok hold
            omega
          · have : tok = w.next := by simpa using hnew
            omega
        · have hmapeq : toks.map (resolveD (⟨(w.next, t ++ [v]) :: w.fs, w.next + 1⟩ : World V)) =
              toks.map (resolveD w) := by
            refine List.map_congr_left ?_
            intro tok htok
            exact resolveD_push w (t ++ [v]) tok (hInv.fresh tok htok)
          have hnew : resolveD (⟨(w.next, t ++ [v]) :: w.fs, w.next + 1⟩ : World V) w.next
              = t ++ [v] := by
            simp [resolveD, fsLookup_cons_eq]
          rw [List.map_append, hmapeq]
          simp only [List.map_cons, List.map_nil, hnew, List.flatten_append,
            List.flatten_cons, List.flatten_nil, List.append_nil]
          rw [← hInv.flat]
          simp [List.append_assoc]
    · refine ⟨w, { a with chunks := toks.map Chunk.disk ++ [Chunk.mem (t ++ [v])] },
        toks, t ++ [v], ?_, ?_⟩
      · simp [BigArray.append, hInv.notClosed, hlast, appendSizing, hnone,
              appendSpill, hspill, hdrop]
      · refine
          { notClosed := hInv.notClosed
            lpos := hInv.lpos
            chunksEq := rfl
            cacheNone := hInv.cacheNone
            bodyOk := hInv.bodyOk
            fresh := hInv.fresh
            tlt := by simp; omega
            flat := ?_
            sizing := Or.inl hnone }
        rw [← hInv.flat]
        simp [List.append_assoc]
  · subst htnil
    by_cases hcross : BIGARRAY_CHUNK_SIZE ≤ s + k'
    · have hm1 : max (t.length + 1) 1 = t.length + 1 := by omega
      refine ⟨⟨(w.next, t ++ [v]) :: w.fs, w.next + 1⟩,
        { a with chunks := [Chunk.disk w.next, Chunk.mem []]
                 chunk_length := t.length + 1
                 size_counter := none
                 filenames := w.next :: a.filenames },
        [w.next], [], ?_, ?_⟩
      · simp [BigArray.append, hInv.notClosed, hlast, appendSizing, hs, hmax, hsz,
              hcross, appendSpill, dumpOk, dumpWith, hdrop, hm1]
      · have hxs : t = xs := by
          have := hInv.flat
          simpa using this
        refine
          { notClosed := hInv.notClosed
            lpos := by simp
            chunksEq := by simp
            cacheNone := hInv.cacheNone
            bodyOk := ?_
            fresh := ?_
            tlt := by simp
            flat := ?_
            sizing := Or.inl rfl }
        · intro tok htok
          have : tok = w.next := by simpa using htok
          subst this
          exact ⟨t ++ [v], fsLookup_cons_eq _ _ _, by simp⟩
        · intro tok htok
          dsimp only
          have : tok = w.next := by simpa using htok
          omega
        · simp [resolveD, fsLookup_cons_eq, hxs]
    · have hnc : s + k' < BIGARRAY_CHUNK_SIZE := by omega
      have hthrmax : BIGARRAY_CHUNK_SIZE < sysMaxsize := by decide
      have hbig : ¬ (sysMaxsize ≤ t.length + 1) := by omega
      refine ⟨w, { a with chunks := [Chunk.mem (t ++ [v])]
                          size_counter := some (s + k') },
        [], t ++ [v], ?_, ?_⟩
      · simp [BigArray.append, hInv.notClosed, hlast, appendSizing, hs, hmax, hsz,
              hcross, appendSpill, hdrop, hbig]
      · have hxs : t = xs := by
          have := hInv.flat
          simpa using this
        refine
          { notClosed := hInv.notClosed
            lpos := hInv.lpos
            chunksEq := by simp
            cacheNone := hInv.cacheNone
            bodyOk := by intro tok htok; exact absurd htok (List.not_mem_nil _)
            fresh := by intro tok htok; exact absurd htok (List.not_mem_nil _)
            tlt := by simp [hmax]; omega
            flat := by simp [hxs]
            sizing := Or.inr ⟨hmax, rfl, s + k', rfl, by simp; omega, hnc⟩ }

/-- The `extend` loop from a state satisfying the append-phase invariant
appends every value and extends the logical content accordingly. -/
theorem extendGo_inv {V : Type} (sz : V → Option Nat) (vs : List V) :
    ∀ {w : World V} {a : BigArray V} {toks : List Nat} {t xs : List V},
    Inv w a toks t xs →
    (∀ v ∈ vs, 1 ≤ (sz v).getD 0) →
    ∃ w' a' toks' t', extendGo sz vs w a = (Except.ok (), w', a') ∧
      Inv w' a' toks' t' (xs ++ vs) := by
  induction vs with
  | nil =>
    intro w a toks t xs hInv _
    exact ⟨w, a, toks, t, rfl, by simpa using hInv⟩
  | cons v vs ih =>
    intro w a toks t xs hInv hsz
    have hv := hsz v (by simp)
    obtain ⟨k', hk', hk1⟩ : ∃ k', sz v = some k' ∧ 1 ≤ k' := by
      cases h : sz v with
      | none => rw [h] at hv; simp at hv
      | some k => exact ⟨k, rfl, by rwa [h] at hv⟩
    obtain ⟨w1, a1, toks1, t1, happ, hInv1⟩ := append_inv sz v k' hInv hk' hk1
    obtain ⟨w2, a2, toks2, t2, hgo, hInv2⟩ :=
      ih hInv1 (fun u hu => hsz u (List.mem_cons_of_mem _ hu))
    refine ⟨w2, a2, toks2, t2, by simp [extendGo, happ, hgo], ?_⟩
    rw [List.append_cons]
    exact hInv2

/-- The append-phase invariant implies read-well-formedness. -/
theorem inv_wfr {V : Type} {w : World V} {a : BigArray V} {toks : List Nat}
    {t xs : List V} (hInv : Inv w a toks t xs) :
    WFr w a (toks.map Chunk.disk) t :=
  { notClosed := hInv.notClosed
    lpos := hInv.lpos
    chunksEq := hInv.chunksEq
    tlt := hInv.tlt
    bodyOk := by
      intro c hc
      obtain ⟨tok, htok, rfl⟩ := List.mem_map.1 hc
      obtain ⟨d, hd, hdl⟩ := hInv.bodyOk tok htok
      exact ⟨d, by simpa [chunkData] using hd, hdl⟩
    cacheClean := by
      intro c hc
      rw [hInv.cacheNone] at hc
      exact Option.noConfusion hc }

/-- Length of a flattening of equal-length lists. -/
theorem flatten_len {V : Type} (L : Nat) :
    ∀ (ds : List (List V)), (∀ d ∈ ds, d.length = L) →
    ds.flatten.length = ds.length * L := by
  intro ds
  induction ds with
  | nil => intro _; simp
  | cons d ds ih =>
    intro h
    have hd : d.length = L := h d (by simp)
    have hrest := ih (fun d2 h2 => h d2 (by simp [h2]))
    simp [hd, hrest, Nat.succ_mul, Nat.add_comm]

/-- Indexing into a flattening of equal-length lists followed by a short
tail: logical index `i` addresses list `i div L` at offset `i mod L`. -/
theorem flat_get {V : Type} (L : Nat) (hL : 0 < L) :
    ∀ (ds : List (List V)) (t : List V) (i : Nat),
      (∀ d ∈ ds, d.length = L) → t.length < L → i < ds.length * L + t.length →
      (ds.flatten ++ t)[i]? = ((ds ++ [t])[i / L]?).bind (fun d => d[i % L]?) := by
  intro ds
  induction ds with
  | nil =>
    intro t i _ htl hi
    simp only [List.length_nil, Nat.zero_mul, Nat.zero_add] at hi
    have hiL : i < L := lt_trans hi htl
    rw [Nat.div_eq_of_lt hiL, Nat.mod_eq_of_lt hiL]
    simp
  | cons d ds ih =>
    intro t i hds htl hi
    have hdL : d.length = L := hds d (by simp)
    by_cases hiL : i < L
    · rw [Nat.div_eq_of_lt hiL, Nat.mod_eq_of_lt hiL]
      rw [List.flatten_cons, List.append_assoc,
        List.getElem?_append_left (by omega)]
      simp
    · have hLi : L ≤ i := Nat.le_of_not_lt hiL
      have hdiv : i / L = (i - L) / L + 1 := Nat.div_eq_sub_div hL hLi
      have hmod : i % L = (i - L) % L := Nat.mod_eq_sub_mod hLi
      rw [hdiv, hmod, List.flatten_cons, List.append_assoc,
        List.getElem?_append_right (by omega)]
      rw [hdL]
      have hskip : ((d :: ds) ++ [t])[(i - L) / L + 1]? = (ds ++ [t])[(i - L) / L]? := by
        simp
      rw [hskip]
      have hbound : i - L < ds.length * L + t.length := by
        have hsm : (d :: ds).length * L = ds.length * L + L := by
          simp [Nat.succ_mul]
        omega
      exact ih t (i - L) (fun d2 h2 => hds d2 (by simp [h2])) htl hbound

/-- Under the append-phase invariant, specification-level addressing
reads back exactly the list of appended values. -/
theorem specGet_flat {V : Type} {w : World V} {a : BigArray V} {toks : List Nat}
    {t xs : List V} (hInv : Inv w a toks t xs) (i : Nat) (hi : i < xs.length) :
    specGet w a.chunk_length a.chunks i = xs[i]? := by
  have hL : 0 < a.chunk_length := hInv.lpos
  have hlens : ∀ d ∈ toks.map (resolveD w), d.length = a.chunk_length := by
    intro d hd
    obtain ⟨tok, htok, rfl⟩ := List.mem_map.1 hd
    obtain ⟨d0, hd0, hl⟩ := hInv.bodyOk tok htok
    simp [resolveD, hd0, hl]
  have hchunkmatch : ∀ j : Nat,
      ((a.chunks[j]?).bind (chunkData w)) =
        (toks.map (resolveD w) ++ [t])[j]? := by
    intro j
    rw [hInv.chunksEq]
    by_cases hj : j < toks.length
    · rw [List.getElem?_append_left (by simpa using hj),
        List.getElem?_append_left (by simpa using hj)]
      rw [List.getElem?_map, List.getElem?_map]
      rw [List.getElem?_eq_getElem hj]
      obtain ⟨d0, hd0, _⟩ := hInv.bodyOk toks[j] (List.getElem_mem hj)
      simp [chunkData, hd0, resolveD]
    · rw [List.getElem?_append_right (by simpa using Nat.le_of_not_lt hj),
        List.getElem?_append_right (by simpa using Nat.le_of_not_lt hj)]
      simp only [List.length_map]
      by_cases hj1 : j - toks.length < 1
      · rw [show j - toks.length = 0 by omega]
        simp [chunkData]
      · rw [show ([Chunk.mem t] : List (Chunk V))[j - toks.length]? = none by
          apply List.getElem?_eq_none
          simp; omega]
        rw [show ([t] : List (List V))[j - toks.length]? = none by
          apply List.getElem?_eq_none
          simp; omega]
        simp
  have hflen := flatten_len a.chunk_length (toks.map (resolveD w)) hlens
  have hbound : i < (toks.map (resolveD w)).length * a.chunk_length + t.length := by
    have hxl : xs.length = (toks.map (resolveD w)).flatten.length + t.length := by
      rw [← hInv.flat, List.length_append]
    omega
  have hms : specGet w a.chunk_length a.chunks i =
      ((a.chunks[i / a.chunk_length]?).bind (chunkData w)).bind
        (fun d => d[i % a.chunk_length]?) := by
    unfold specGet
    cases h : a.chunks[i / a.chunk_length]? with
    | none => simp
    | some ch => simp
  rw [hms, hchunkmatch (i / a.chunk_length), ← hInv.flat]
  exact (flat_get a.chunk_length hL (toks.map (resolveD w)) t i hlens hInv.tlt hbound).symm

/-- Under the append-phase invariant the reported length is the number
of appended values. -/
theorem inv_len {V : Type} {w : World V} {a : BigArray V} {toks : List Nat}
    {t xs : List V} (hInv : Inv w a toks t xs) : a.len = xs.length := by
  rw [len_eq (inv_wfr hInv), ← hInv.flat, List.length_append]
  have hlens : ∀ d ∈ toks.map (resolveD w), d.length = a.chunk_length := by
    intro d hd
    obtain ⟨tok, htok, rfl⟩ := List.mem_map.1 hd
    obtain ⟨d0, hd0, hl⟩ := hInv.bodyOk tok htok
    simp [resolveD, hd0, hl]
  rw [flatten_len a.chunk_length (toks.map (resolveD w)) hlens]
  simp

/-- Reading a run of consecutive indices through `__getitem__`: each
read returns the element predicted by specification-level addressing and
leaves the store, file system and well-formedness intact, so the whole
run returns exactly the predicted elements. -/
theorem readAll_seq {V : Type} {w : World V} (ys : List V) :
    ∀ (start : Nat) (a : BigArray V) (body : List (Chunk V)) (t : List V),
      WFr w a body t →
      (∀ j, j < ys.length → start + j < a.len ∧
        specGet w a.chunk_length a.chunks (start + j) = ys[j]?) →
      (readAll (List.range' start ys.length) w a).1 = ys.map Except.ok := by
  induction ys with
  | nil => intro start a body t _ _; simp [readAll]
  | cons y ys ih =>
    intro start a body t hW h
    have h0 := h 0 (by simp)
    obtain ⟨v, c2, hs, hg, hW2⟩ := getItem_ok hW (start + 0) h0.1
    have hv : v = y := by
      rw [h0.2] at hs
      have := hs
      simp only [List.getElem?_cons_zero, Option.some.injEq] at this
      exact this.symm
    have hrange : List.range' start (y :: ys).length =
        start :: List.range' (start + 1) ys.length := List.range'_succ start ys.length 1
    have hrest := ih (start + 1) { a with cache := c2 } body t hW2 ?_
    · rw [hrange]
      simp only [readAll]
      rw [show Int.ofNat (start + 0) = Int.ofNat start from by simp] at hg
      rw [hg]
      rcases hr : readAll (List.range' (start + 1) ys.length) w { a with cache := c2 } with
        ⟨rs, w2, a2⟩
      have hrs : rs = ys.map Except.ok := by
        rw [hr] at hrest
        exact hrest
      simp [hrs, hv]
    · intro j hj
      have hj1 := h (j + 1) (by simpa using Nat.succ_lt_succ hj)
      constructor
      · have : start + 1 + j = start + (j + 1) := by omega
        rw [this]
        exact hj1.1
      · have : start + 1 + j = start + (j + 1) := by omega
        rw [this]
        simpa using hj1.2

/-- C1 (amended): for every positive chunk length (explicit override or
the adaptive default) and every sequence of values with positive size
estimates, appending them all via `extend` (a loop of `append`) succeeds,
and reading indices `0..N-1` in order returns exactly the appended
sequence. -/
theorem claim1_append_read_roundtrip {V : Type} (cs cl : Nat) (hcs : 1 ≤ cs)
    (sz : V → Option Nat) (xs : List V)
    (hsz : ∀ v ∈ xs, 1 ≤ (sz v).getD 0) (w : World V) :
    ∃ w' a', BigArray.extend sz w (BigArray.init V cs cl) xs = (Except.ok (), w', a') ∧
      (readAll (List.range xs.length) w' a').1 = xs.map Except.ok := by
  have hInv0 := init_inv w cs cl hcs
  obtain ⟨w', a', toks', t', hgo, hInv⟩ := extendGo_inv sz xs hInv0 hsz
  have hInv' : Inv w' a' toks' t' xs := by simpa using hInv
  refine ⟨w', a', ?_, ?_⟩
  · rw [BigArray.extend, if_neg (by simp [hInv0.notClosed])]
    exact hgo
  · rw [List.range_eq_range']
    exact readAll_seq xs 0 a' (toks'.map Chunk.disk) t' (inv_wfr hInv')
      (fun j hj => ⟨by rw [inv_len hInv']; omega, by simpa using specGet_flat hInv' j hj⟩)

/-- Membership from a successful indexed lookup. -/
theorem mem_of_getElem_eq {V : Type} {l : List V} {n : Nat} {x : V}
    (h : l[n]? = some x) : x ∈ l := by
  obtain ⟨hlt, rfl⟩ := List.getElem?_eq_some.1 h
  exact List.getElem_mem hlt

/-- A spilled placeholder always lies in the body: the last chunk is
resident. -/
theorem disk_lt_body {V : Type} {chunks body : List (Chunk V)} {t : List V}
    {k f : Nat} (hsh : chunks = body ++ [Chunk.mem t])
    (hk : chunks[k]? = some (Chunk.disk f)) : k < body.length := by
  by_contra hcon
  rw [hsh, List.getElem?_append_right (Nat.le_of_not_lt hcon)] at hk
  rcases h1 : k - body.length with _ | n
  · rw [h1] at hk
    simp at hk
  · rw [h1] at hk
    simp at hk

/-- An index addressing a body chunk is below the total length. -/
theorem idx_lt_len {V : Type} {a : BigArray V} {body : List (Chunk V)}
    {t : List V} {k i : Nat} (hcl : a.closed = false)
    (hsh : a.chunks = body ++ [Chunk.mem t]) (hL : 1 ≤ a.chunk_length)
    (hdiv : i / a.chunk_length = k) (hk : k < body.length) : i < a.len := by
  rw [len_formula hcl hsh]
  have hdm := Nat.div_add_mod i a.chunk_length
  rw [hdiv] at hdm
  have hmod := Nat.mod_lt i (show 0 < a.chunk_length by omega)
  have h1 : a.chunk_length * (k + 1) ≤ a.chunk_length * body.length :=
    Nat.mul_le_mul_left _ (by omega)
  have h2 : a.chunk_length * body.length = body.length * a.chunk_length :=
    Nat.mul_comm _ _
  have h3 : a.chunk_length * (k + 1) = a.chunk_length * k + a.chunk_length :=
    Nat.mul_succ _ _
  omega

/-- Evaluation of `__setitem__` at an in-bounds natural key: the guard
chain falls through to the chunk-addressing match. -/
theorem setItem_eval {V : Type} (w : World V) (a : BigArray V) (i : Nat) (v : V)
    (hcl : a.closed = false) (hle : i < a.len) (hL0 : ¬ (a.chunk_length = 0)) :
    BigArray.setItem w a (Int.ofNat i) v =
      match a.chunks[i / a.chunk_length]? with
      | none => (Except.error (PyErr.indexError ("list index out of range")), w, a)
      | some (Chunk.mem l) =>
          if i % a.chunk_length < l.length then
            (Except.ok (), w,
             { a with chunks := a.chunks.set (i / a.chunk_length) (Chunk.mem (l.set (i % a.chunk_length) v)) })
          else
            (Except.error (PyErr.indexError ("list assignment index out of range")), w, a)
      | some (Chunk.disk _) =>
          setSpilled w a (i / a.chunk_length) (i % a.chunk_length) v := by
  have h1 : ¬ (a.closed = true) := by simp [hcl]
  have h2 : ¬ ((Int.ofNat i) < 0) := by
    simp only [Int.ofNat_eq_coe]
    omega
  have h3 : ¬ ((Int.ofNat i) < 0 ∨ (a.len : Int) ≤ Int.ofNat i) := by
    simp only [Int.ofNat_eq_coe]
    omega
  unfold BigArray.setItem
  dsimp only
  rw [if_neg h1, if_neg h2, if_neg h3, if_neg hL0]
  rw [show (Int.ofNat i).toNat = i from rfl]

/-- `_checkcache` when the slot already holds the target chunk: no flush
and no load, the state is untouched (whether or not the slot is dirty). -/
theorem checkcache_hit {V : Type} (w : World V) (a : BigArray V) (target : Nat)
    (c : Cache V) (hc : a.cache = some c) (hidx : c.index = target) :
    _checkcache w a target = (Except.ok (), w, a) := by
  unfold _checkcache flushStep
  simp only [hc]
  rw [if_pos hidx]
  simp only [loadStep, hc]
  rw [if_pos hidx]

/-- `_checkcache` when no flush is due (no slot, or a clean slot over a
different chunk): the target is simply loaded into the slot. -/
theorem checkcache_load {V : Type} (w : World V) (a : BigArray V) (target : Nat)
    (ch : Chunk V) (d : List V)
    (hcases : a.cache = none ∨
      ∃ c, a.cache = some c ∧ c.index ≠ target ∧ c.dirty = false)
    (hch : a.chunks[target]? = some ch) (hd : chunkData w ch = some d) :
    _checkcache w a target =
      (Except.ok (), w, { a with cache := some ⟨target, d, false⟩ }) := by
  unfold _checkcache
  rcases hcases with hnone | ⟨c, hc, hidx, hdirty⟩
  · simp only [flushStep, hnone]
    simp only [loadStep, hnone]
    exact doLoad_ok w a target ch d hch hd
  · simp only [flushStep, hc]
    rw [if_neg hidx, hdirty]
    simp only [Bool.false_eq_true, if_false]
    simp only [loadStep, hc]
    rw [if_neg hidx]
    exact doLoad_ok w a target ch d hch hd

/-- `_checkcache` when a dirty slot over another chunk must be evicted:
the dirty data is dumped to a fresh file, the store's placeholder at the
slot's index is rewritten to that file, and the target chunk is loaded
into the slot from its (still untouched) file. -/
theorem checkcache_flush_load {V : Type} (w : World V) (a : BigArray V)
    (target : Nat) (c : Cache V) (hc : a.cache = some c)
    (hcidx : c.index ≠ target) (hdirty : c.dirty = true)
    (hlt : c.index < a.chunks.length) (ftok : Nat) (d : List V)
    (hch : a.chunks[target]? = some (Chunk.disk ftok)) (hf : ftok < w.next)
    (hlook : fsLookup w.fs ftok = some d) :
    _checkcache w a target =
      (Except.ok (), ⟨(w.next, c.data) :: w.fs, w.next + 1⟩,
       { a with filenames := w.next :: a.filenames
                chunks := a.chunks.set c.index (Chunk.disk w.next)
                cache := some ⟨target, d, false⟩ }) := by
  have hne : w.next ≠ ftok := by omega
  unfold _checkcache flushStep
  simp only [hc]
  rw [if_neg hcidx, hdirty]
  simp only [if_true, dumpOk, dumpWith]
  rw [if_pos (by simpa using hlt)]
  simp only [loadStep]
  rw [if_neg hcidx]
  unfold doLoad
  simp only [List.getElem?_set_ne hcidx, hch]
  rw [fsLookup_cons_ne _ _ _ _ hne, hlook]

/-- Writing through the cache into a spilled chunk: `__setitem__`
succeeds and leaves the container in the dirty mid state, whatever the
previous cache slot was (absent, over the same chunk, clean over another
chunk, or dirty over another chunk — the last case flushing it to a
fresh file first). -/
theorem c2_set_mid {V : Type} (w : World V) (a : BigArray V)
    (body : List (Chunk V)) (t : List V) (ki kj fi fj i : Nat)
    (di dj : List V) (v : V)
    (hcl : a.closed = false)
    (hL : 1 ≤ a.chunk_length)
    (hsh : a.chunks = body ++ [Chunk.mem t])
    (hcache : ∀ c, a.cache = some c → c.data.length = a.chunk_length ∧
      c.index + 1 < a.chunks.length)
    (hfresh : ∀ tok, Chunk.disk tok ∈ a.chunks → tok < w.next)
    (hki : a.chunks[ki]? = some (Chunk.disk fi))
    (hkj : a.chunks[kj]? = some (Chunk.disk fj))
    (hdi : fsLookup w.fs fi = some di) (hdilen : di.length = a.chunk_length)
    (hdj : fsLookup w.fs fj = some dj) (hdjlen : dj.length = a.chunk_length)
    (hne : ki ≠ kj) (hi : i / a.chunk_length = ki) :
    ∃ w1 a1, BigArray.setItem w a (Int.ofNat i) v = (Except.ok (), w1, a1) ∧
      MidSt w1 a1 a.chunk_length ki kj i v := by
  have hkiB : ki < body.length := disk_lt_body hsh hki
  have hkjB : kj < body.length := disk_lt_body hsh hkj
  have hL0 : ¬ (a.chunk_length = 0) := by omega
  have hilen : i < a.len := idx_lt_len hcl hsh hL hi hkiB
  have hmod : i % a.chunk_length < a.chunk_length := Nat.mod_lt i (by omega)
  have heval := setItem_eval w a i v hcl hilen hL0
  rw [hi, hki] at heval
  rcases hc : a.cache with _ | c
  · have hcc := checkcache_load w a ki (Chunk.disk fi) di (Or.inl hc) hki
      (by simpa [chunkData] using hdi)
    refine ⟨w, { a with cache := some ⟨ki, di.set (i % a.chunk_length) v, true⟩ },
      ?_, ?_⟩
    · rw [heval]
      unfold setSpilled
      rw [hcc]
      simp only
      rw [if_pos (show i % a.chunk_length < di.length by rw [hdilen]; exact hmod)]
    · exact
        { notClosed := hcl
          lEq := rfl
          lpos := hL
          shape := ⟨body, t, hsh, hkiB, hkjB⟩
          cacheD := ⟨di.set (i % a.chunk_length) v, rfl, by simp [hdilen],
            List.getElem?_set_eq_of_lt v (by rw [hdilen]; exact hmod)⟩
          kjSpill := ⟨fj, dj, hkj, hdj, hdjlen⟩
          fresh := hfresh
          idiv := hi
          neq := hne }
  · obtain ⟨ci, cd, cb⟩ := c
    by_cases hidx : ci = ki
    · subst hidx
      have hcc := checkcache_hit w a ci ⟨ci, cd, cb⟩ hc rfl
      have hdl : cd.length = a.chunk_length := (hcache ⟨ci, cd, cb⟩ hc).1
      refine ⟨w, { a with cache := some ⟨ci, cd.set (i % a.chunk_length) v, true⟩ },
        ?_, ?_⟩
      · rw [heval]
        unfold setSpilled
        rw [hcc]
        simp only [hc]
        rw [if_pos (show i % a.chunk_length < cd.length by rw [hdl]; exact hmod)]
      · exact
          { notClosed := hcl
            lEq := rfl
            lpos := hL
            shape := ⟨body, t, hsh, hkiB, hkjB⟩
            cacheD := ⟨cd.set (i % a.chunk_length) v, rfl, by simp [hdl],
              List.getElem?_set_eq_of_lt v (by rw [hdl]; exact hmod)⟩
            kjSpill := ⟨fj, dj, hkj, hdj, hdjlen⟩
            fresh := hfresh
            idiv := hi
            neq := hne }
    · by_cases hdirty : cb = true
      · subst hdirty
        have hciB : ci < body.length := by
          have h2 := (hcache ⟨ci, cd, true⟩ hc).2
          dsimp only at h2
          rw [hsh] at h2
          simp only [List.length_append, List.length_cons, List.length_nil] at h2
          omega
        have hlt : ci < a.chunks.length := by
          have h2 := (hcache ⟨ci, cd, true⟩ hc).2
          dsimp only at h2
          omega
        have hfi : fi < w.next := hfresh fi (mem_of_getElem_eq hki)
        have hfj : fj < w.next := hfresh fj (mem_of_getElem_eq hkj)
        have hcc := checkcache_flush_load w a ki ⟨ci, cd, true⟩ hc hidx rfl hlt fi di
          hki hfi hdi
        refine ⟨⟨(w.next, cd) :: w.fs, w.next + 1⟩,
          { a with filenames := w.next :: a.filenames
                   chunks := a.chunks.set ci (Chunk.disk w.next)
                   cache := some ⟨ki, di.set (i % a.chunk_length) v, true⟩ },
          ?_, ?_⟩
        · rw [heval]
          unfold setSpilled
          rw [hcc]
          simp only
          rw [if_pos (show i % a.chunk_length < di.length by rw [hdilen]; exact hmod)]
        · refine
            { notClosed := hcl
              lEq := rfl
              lpos := hL
              shape := ⟨body.set ci (Chunk.disk w.next), t, ?_, ?_, ?_⟩
              cacheD := ⟨di.set (i % a.chunk_length) v, rfl, by simp [hdilen],
                List.getElem?_set_eq_of_lt v (by rw [hdilen]; exact hmod)⟩
              kjSpill := ?_
              fresh := ?_
              idiv := hi
              neq := hne }
          · rw [hsh, List.set_append_left _ _ hciB]
          · simpa using hkiB
          · simpa using hkjB
          · by_cases hckj : ci = kj
            · subst hckj
              refine ⟨w.next, cd, ?_, ?_, (hcache ⟨ci, cd, true⟩ hc).1⟩
              · simp only
                rw [List.getElem?_set_eq_of_lt _ hlt]
              · exact fsLookup_cons_eq _ _ _
            · refine ⟨fj, dj, ?_, ?_, hdjlen⟩
              · simp only
                rw [List.getElem?_set_ne hckj]
                exact hkj
              · rw [fsLookup_cons_ne _ _ _ _ (by omega)]
                exact hdj
          · intro tok htok
            dsimp only
            simp only at htok
            rcases List.mem_or_eq_of_mem_set htok with hold | hnew
            · have := hfresh tok hold
              omega
            · injection hnew with hnew
              omega
      · have hcb : cb = false := by
          cases cb
          · rfl
          · exact absurd rfl hdirty
        subst hcb
        have hcc := checkcache_load w a ki (Chunk.disk fi) di
          (Or.inr ⟨⟨ci, cd, false⟩, hc, hidx, rfl⟩) hki
          (by simpa [chunkData] using hdi)
        refine ⟨w, { a with cache := some ⟨ki, di.set (i % a.chunk_length) v, true⟩ },
          ?_, ?_⟩
        · rw [heval]
          unfold setSpilled
          rw [hcc]
          simp only
          rw [if_pos (show i % a.chunk_length < di.length by rw [hdilen]; exact hmod)]
        · exact
            { notClosed := hcl
              lEq := rfl
              lpos := hL
              shape := ⟨body, t, hsh, hkiB, hkjB⟩
              cacheD := ⟨di.set (i % a.chunk_length) v, rfl, by simp [hdilen],
                List.getElem?_set_eq_of_lt v (by rw [hdilen]; exact hmod)⟩
              kjSpill := ⟨fj, dj, hkj, hdj, hdjlen⟩
              fresh := hfresh
              idiv := hi
              neq := hne }

/-- Reading a different spilled chunk from the dirty mid state forces
the eviction: the dirty data is flushed to a fresh file whose token
replaces the store's placeholder, and the read succeeds from the other
chunk's file, leaving a clean cache slot. -/
theorem c2_get_other {V : Type} (w1 : World V) (a1 : BigArray V)
    (L ki kj i j : Nat) (v : V) (hM : MidSt w1 a1 L ki kj i v)
    (hj : j / L = kj) :
    ∃ u w2 a2, BigArray.getItem w1 a1 (Int.ofNat j) = (Except.ok u, w2, a2) ∧
      FinSt w2 a2 L ki i v := by
  obtain ⟨body1, t1, hsh1, hkiB, hkjB⟩ := hM.shape
  obtain ⟨D, hcD, hDlen, hDoff⟩ := hM.cacheD
  obtain ⟨f2, d2, hkj2, hlook2, hd2len⟩ := hM.kjSpill
  have hlEq := hM.lEq
  have hL0 : ¬ (a1.chunk_length = 0) := by
    rw [hlEq]
    have := hM.lpos
    omega
  have hj' : j / a1.chunk_length = kj := by rw [hlEq]; exact hj
  have hjlen : j < a1.len :=
    idx_lt_len hM.notClosed hsh1 (by rw [hlEq]; exact hM.lpos) hj' hkjB
  have hlen0 : ¬ (a1.len = 0) := by omega
  have heval := getItem_eval w1 a1 j hM.notClosed hlen0 hjlen hL0
  rw [hj', hkj2] at heval
  have hkiLt : ki < a1.chunks.length := by
    rw [hsh1]
    simp only [List.length_append, List.length_cons, List.length_nil]
    omega
  have hf2 : f2 < w1.next := hM.fresh f2 (mem_of_getElem_eq hkj2)
  have hcc := checkcache_flush_load w1 a1 kj ⟨ki, D, true⟩ hcD hM.neq rfl hkiLt
    f2 d2 hkj2 hf2 hlook2
  have hoffj : j % a1.chunk_length < d2.length := by
    rw [hd2len, ← hlEq]
    exact Nat.mod_lt j (by omega)
  refine ⟨d2[j % a1.chunk_length], ⟨(w1.next, D) :: w1.fs, w1.next + 1⟩,
    { a1 with filenames := w1.next :: a1.filenames
              chunks := a1.chunks.set ki (Chunk.disk w1.next)
              cache := some ⟨kj, d2, false⟩ }, ?_, ?_⟩
  · rw [heval]
    unfold getSpilled
    rw [hcc]
    simp only
    rw [List.getElem?_eq_getElem hoffj]
  · refine
      { notClosed := hM.notClosed
        lEq := hM.lEq
        lpos := hM.lpos
        shape := ⟨body1.set ki (Chunk.disk w1.next), t1, ?_, by simpa using hkiB⟩
        cacheClean := ⟨⟨kj, d2, false⟩, rfl, rfl, fun h => hM.neq h.symm⟩
        kiDisk := ⟨w1.next, D, ?_, ?_, hDlen, hDoff⟩
        idiv := hM.idiv }
    · rw [hsh1, List.set_append_left _ _ hkiB]
    · dsimp only
      rw [List.getElem?_set_eq_of_lt _ hkiLt]
    · exact fsLookup_cons_eq _ _ _

/-- Re-reading the originally written index from the evicted state: the
flushed file is loaded back and the read returns the written value. -/
theorem c2_get_back {V : Type} (w2 : World V) (a2 : BigArray V) (L ki i : Nat)
    (v : V) (hF : FinSt w2 a2 L ki i v) :
    (BigArray.getItem w2 a2 (Int.ofNat i)).1 = Except.ok v := by
  obtain ⟨body2, t2, hsh2, hkiB⟩ := hF.shape
  obtain ⟨c0, hc0, hc0d, hc0i⟩ := hF.cacheClean
  obtain ⟨tokD, D, hkiD, hlookD, hDlen, hDoff⟩ := hF.kiDisk
  have hlEq := hF.lEq
  have hL0 : ¬ (a2.chunk_length = 0) := by
    rw [hlEq]
    have := hF.lpos
    omega
  have hi' : i / a2.chunk_length = ki := by rw [hlEq]; exact hF.idiv
  have hilen : i < a2.len :=
    idx_lt_len hF.notClosed hsh2 (by rw [hlEq]; exact hF.lpos) hi' hkiB
  have hlen0 : ¬ (a2.len = 0) := by omega
  have heval := getItem_eval w2 a2 i hF.notClosed hlen0 hilen hL0
  rw [hi', hkiD] at heval
  have hcc := checkcache_load w2 a2 ki (Chunk.disk tokD) D
    (Or.inr ⟨c0, hc0, hc0i, hc0d⟩) hkiD (by simpa [chunkData] using hlookD)
  rw [heval]
  unfold getSpilled
  rw [hcc]
  simp only
  have hmod : i % a2.chunk_length = i % L := by rw [hlEq]
  rw [hmod, hDoff]

/-- C2: on a container with two distinct spilled chunks, writing a value
into one of them through the cache, then reading the other (which evicts
and flushes the dirty slot), then re-reading the written index returns
the written value, not the previously persisted one. -/
theorem claim2_flush_before_evict {V : Type} (w : World V) (a : BigArray V)
    (body : List (Chunk V)) (t : List V) (ki kj fi fj i j : Nat)
    (di dj : List V) (v : V)
    (hcl : a.closed = false) (hL : 1 ≤ a.chunk_length)
    (hsh : a.chunks = body ++ [Chunk.mem t])
    (hcache : ∀ c, a.cache = some c → c.data.length = a.chunk_length ∧
      c.index + 1 < a.chunks.length)
    (hfresh : ∀ tok, Chunk.disk tok ∈ a.chunks → tok < w.next)
    (hki : a.chunks[ki]? = some (Chunk.disk fi))
    (hkj : a.chunks[kj]? = some (Chunk.disk fj))
    (hdi : fsLookup w.fs fi = some di) (hdilen : di.length = a.chunk_length)
    (hdj : fsLookup w.fs fj = some dj) (hdjlen : dj.length = a.chunk_length)
    (hne : ki ≠ kj) (hi : i / a.chunk_length = ki)
    (hj : j / a.chunk_length = kj) :
    ∃ w1 a1 u w2 a2,
      BigArray.setItem w a (Int.ofNat i) v = (Except.ok (), w1, a1) ∧
      BigArray.getItem w1 a1 (Int.ofNat j) = (Except.ok u, w2, a2) ∧
      (BigArray.getItem w2 a2 (Int.ofNat i)).1 = Except.ok v := by
  obtain ⟨w1, a1, hset, hMid⟩ := c2_set_mid w a body t ki kj fi fj i di dj v
    hcl hL hsh hcache hfresh hki hkj hdi hdilen hdj hdjlen hne hi
  obtain ⟨u, w2, a2, hget, hFin⟩ :=
    c2_get_other w1 a1 a.chunk_length ki kj i j v hMid hj
  exact ⟨w1, a1, u, w2, a2, hset, hget, c2_get_back w2 a2 a.chunk_length ki i v hFin⟩

/-- Witness for C2 on the concrete two-spilled-chunk container: write 99
at index 1 (chunk 0), read index 2 (chunk 1, forcing the eviction), then
read index 1 back. -/
theorem claim2_flush_before_evict_witness :
    ∃ w1 a1 u w2 a2,
      BigArray.setItem wTwoSpill stTwoSpill (Int.ofNat 1) 99 = (Except.ok (), w1, a1) ∧
      BigArray.getItem w1 a1 (Int.ofNat 2) = (Except.ok u, w2, a2) ∧
      (BigArray.getItem w2 a2 (Int.ofNat 1)).1 = Except.ok 99 :=
  claim2_flush_before_evict wTwoSpill stTwoSpill [Chunk.disk 0, Chunk.disk 1] [4]
    0 1 0 1 1 2 [0, 1] [2, 3] 99 rfl (by decide) rfl
    (by intro c hc; exact Option.noConfusion hc)
    (by
      intro tok htok
      simp only [stTwoSpill, List.mem_cons, List.not_mem_nil, or_false,
        Chunk.disk.injEq] at htok
      rcases htok with h | h | h
      · subst h
        decide
      · subst h
        decide
      · exact absurd h (by simp))
    rfl rfl rfl rfl rfl rfl (by decide) (by decide) (by decide)

/-- C4 (amended): when the open chunk is empty and more than one chunk
exists, `pop` drops the empty placeholder and promotes the previous
chunk by reading its persisted file directly (`_load_chunk`), bypassing
the cache entirely: the returned element is the last element of the
persisted data, the cache slot (dirty or not) is untouched, and an
unflushed write into that chunk through the cache is not observed. -/
theorem claim4_promotion_reads_persisted {V : Type} (w : World V)
    (a : BigArray V) (body : List (Chunk V)) (tok : Nat) (d : List V) (x : V)
    (hcl : a.closed = false)
    (hch : a.chunks = body ++ [Chunk.disk tok, Chunk.mem []])
    (hfs : fsLookup w.fs tok = some d)
    (hx : d.getLast? = some x) :
    BigArray.pop w a =
      (Except.ok x, w, { a with chunks := body ++ [Chunk.mem d.dropLast] }) := by
  have hre : body ++ [Chunk.disk tok, Chunk.mem []] =
      (body ++ [Chunk.disk tok]) ++ [Chunk.mem ([] : List V)] := by simp
  have hlast : a.chunks.getLast? = some (Chunk.mem ([] : List V)) := by
    rw [hch, hre]
    exact List.getLast?_concat _
  have hlen : ¬ (a.chunks.length ≤ 1) := by
    rw [hch]
    simp only [List.length_append, List.length_cons, List.length_nil]
    omega
  have hdrop : a.chunks.dropLast = body ++ [Chunk.disk tok] := by
    rw [hch, hre]
    exact List.dropLast_concat
  have hload : loadChunkLast w { a with chunks := a.chunks.dropLast } =
      (Except.ok (), w, { a with chunks := body ++ [Chunk.mem d] }) := by
    unfold loadChunkLast
    simp only [hdrop, List.getLast?_concat, hfs, List.dropLast_concat]
  unfold BigArray.pop
  rw [if_neg (by simp [hcl]), hlast]
  simp only [Chunk.pyLen, List.length_nil]
  rw [if_pos (by omega), if_neg hlen, hload]
  unfold popLastElem
  simp only [List.getLast?_concat, hx, List.dropLast_concat]

/-- Witness for C4 on the concrete dirty-cache container: the cache
holds `[2, 99]` for chunk 1 (dirty), yet promotion re-reads file 1 and
pops 3, leaving the stale `[2]` resident and the cache untouched. -/
theorem claim4_promotion_reads_persisted_witness :
    BigArray.pop wTwoSpill stPromote =
      (Except.ok 3, wTwoSpill,
       { stPromote with chunks := [Chunk.disk 0] ++ [Chunk.mem (List.dropLast [2, 3])] }) :=
  claim4_promotion_reads_persisted wTwoSpill stPromote [Chunk.disk 0] 1 [2, 3] 3
    rfl rfl rfl rfl

/-- Witness for C1 with explicit chunk length 2 and elements 0..4. -/
theorem claim1_append_read_roundtrip_witness :
    1 ≤ 2 ∧ (∀ v ∈ [0, 1, 2, 3, 4], 1 ≤ ((sz1 v).getD 0)) ∧
    ∃ w' a', BigArray.extend sz1 w0N (BigArray.init Nat 2 9) [0, 1, 2, 3, 4] =
        (Except.ok (), w', a') ∧
      (readAll (List.range 5) w' a').1 = [0, 1, 2, 3, 4].map Except.ok :=
  ⟨by decide, by decide,
   claim1_append_read_roundtrip 2 9 (by decide) sz1 [0, 1, 2, 3, 4] (by decide) w0N⟩

end SqlmapBigArray
